import Mathlib

/-!
Verification development for the vikokoro tree/outline editor core
(`src/editor/state.ts`, `src/editor/layout.ts`, `src/editor/types.ts`).

Embedding conventions:
* JavaScript string ids (`NodeId`, `DocId`) are modelled as `Nat`.  The id `0`
  plays the role of the empty string for JavaScript truthiness checks
  (`Boolean(id)` is false exactly for the empty string); generated ids start
  at 1, so no generated id is ever `0`.
* `crypto.randomUUID()` (the ambient fresh-id source `generateId`) is modelled
  by an explicit counter `nextId` threaded through the application state; a
  call returns the counter and bumps it.  Freshness of UUIDs becomes the
  invariant that every id stored in the workspace is below the counter.
* A JavaScript `Record` (plain object used as a map) is modelled as an
  insertion-ordered association list: lookup takes the first binding, update
  of an existing key replaces it in place, update of an absent key appends at
  the end, and `delete` removes the binding (matching object key order).
* Functions of the source that signal "no change" by returning their input
  (which the callers test with reference equality `===`) are embedded as
  `Option`-returning functions: `none` means "the source returned its
  argument unchanged", `some d` means "the source returned the new object d".
-/

namespace Vikokoro

abbrev NodeId := Nat

abbrev DocId := Nat

/-- Lookup in a JavaScript object modelled as an association list
(first binding wins). -/
def objGet {α : Type} (table : List (Nat × α)) (k : Nat) : Option α :=
  match table with
  | [] => none
  | (k2, v) :: rest => if k2 = k then some v else objGet rest k

/-- Assignment `obj[k] = v` (or spread update): replaces the binding of an
existing key in place, appends a new binding at the end otherwise. -/
def objSet {α : Type} (table : List (Nat × α)) (k : Nat) (v : α) : List (Nat × α) :=
  match table with
  | [] => [(k, v)]
  | (k2, v2) :: rest => if k2 = k then (k, v) :: rest else (k2, v2) :: objSet rest k v

/-- JavaScript `delete obj[k]` (also used for rest-destructuring that omits
one key). -/
def objDelete {α : Type} (table : List (Nat × α)) (k : Nat) : List (Nat × α) :=
  table.filter (fun p => p.1 ≠ k)

/-- Key list of an object, in insertion order (`Object.keys`). -/
def keys {α : Type} (table : List (Nat × α)) : List Nat :=
  table.map Prod.fst

/-- `Array.prototype.indexOf`, with `none` for the result `-1`. -/
def indexOf (l : List Nat) (a : Nat) : Option Nat :=
  match l with
  | [] => none
  | x :: xs => if x = a then some 0 else (indexOf xs a).map (fun n => n + 1)

/-- From `types.ts`. -/
inductive Mode where
  | normal
  | insert
deriving DecidableEq

/-- From `types.ts`. -/
structure Node where
  id : NodeId
  text : String
  parentId : Option NodeId
  childrenIds : List NodeId
deriving DecidableEq

/-- From `types.ts`. -/
structure DocumentState where
  rootId : NodeId
  cursorId : NodeId
  nodes : List (NodeId × Node)
deriving DecidableEq

/-- From `types.ts`: `Document = DocumentState & {id, undoStack, redoStack}`. -/
structure Document extends DocumentState where
  id : DocId
  undoStack : List DocumentState
  redoStack : List DocumentState
deriving DecidableEq

/-- From `types.ts`. -/
structure Tab where
  docId : DocId
deriving DecidableEq

/-- From `types.ts`. -/
structure Workspace where
  tabs : List Tab
  activeDocId : DocId
  documents : List (DocId × Document)
deriving DecidableEq

/-- The `insertOrigin` payload of `EditorAppState`. -/
structure InsertOrigin where
  docId : DocId
  snapshot : DocumentState
deriving DecidableEq

/-- From `state.ts`.  The extra field `nextId` is the explicit id supply that
embeds the ambient `generateId` (see the header comment). -/
structure EditorAppState where
  workspace : Workspace
  mode : Mode
  insertOrigin : Option InsertOrigin
  hydrated : Bool
  saveRevision : Nat
  closeConfirmDocId : Option DocId
  nextId : Nat
deriving DecidableEq

/-- Directions of the `moveCursor` action. -/
inductive MoveDir where
  | parent
  | child
  | nextSibling
  | prevSibling
deriving DecidableEq

/-- Directions of the `swapSibling` action. -/
inductive SwapDir where
  | up
  | down
deriving DecidableEq

/-- From `state.ts`: the `EditorAction` union. -/
inductive EditorAction where
  | finishHydration (workspace : Option Workspace)
  | setActiveDoc (docId : DocId)
  | switchDocNext
  | switchDocPrev
  | createDoc
  | requestCloseActiveDoc
  | cancelCloseConfirm
  | closeActiveDoc
  | deleteNode
  | selectNode (nodeId : NodeId)
  | moveCursor (direction : MoveDir)
  | swapSibling (direction : SwapDir)
  | enterInsert
  | addChildAndInsert
  | addSiblingAndInsert
  | setCursorText (text : String)
  | commitInsert
  | undo
  | redo
deriving DecidableEq

/-- From `state.ts`: rebuilds the node table and copies every node and its
children array.  On immutable Lean values this is provably the identity. -/
def cloneDocumentState (doc : DocumentState) : DocumentState :=
  { rootId := doc.rootId
    cursorId := doc.cursorId
    nodes := doc.nodes.map (fun p =>
      (p.1, { id := p.2.id
              text := p.2.text
              parentId := p.2.parentId
              childrenIds := p.2.childrenIds })) }

/-- From `state.ts`: full structural+content comparison of two document
trees. -/
def documentStateEquals (a b : DocumentState) : Bool :=
  a.rootId = b.rootId && a.cursorId = b.cursorId &&
  (keys a.nodes).length = (keys b.nodes).length &&
  (keys a.nodes).all (fun id =>
    match objGet a.nodes id, objGet b.nodes id with
    | some an, some bn =>
        an.id = bn.id && an.text = bn.text && an.parentId = bn.parentId &&
        an.childrenIds = bn.childrenIds
    | _, _ => false)

/-- From `state.ts`: a fresh document (single empty root).  Takes and returns
the id counter: the source calls `generateId()` twice (root id first). -/
def createInitialDocument (title : String) (c : Nat) : DocId × Document × Nat :=
  let rootId := c
  let docId := c + 1
  (docId,
   { id := docId
     rootId := rootId
     cursorId := rootId
     nodes := [(rootId, { id := rootId, text := title, parentId := none, childrenIds := [] })]
     undoStack := []
     redoStack := [] },
   c + 2)

/-- From `state.ts`.  The id counter starts at 1 (0 stands for the empty
string, which `generateId` never produces). -/
def createInitialAppState : EditorAppState :=
  let r := createInitialDocument "" 1
  { workspace :=
      { tabs := [{ docId := r.1 }]
        activeDocId := r.1
        documents := [(r.1, r.2.1)] }
    mode := Mode.normal
    insertOrigin := none
    hydrated := false
    saveRevision := 0
    closeConfirmDocId := none
    nextId := r.2.2 }

/-- From `state.ts`. -/
def bumpSaveRevision (state : EditorAppState) : EditorAppState :=
  { state with saveRevision := state.saveRevision + 1 }

/-- From `state.ts`.  `Boolean(tab.docId)` is `tab.docId ≠ 0` (the empty
string is the only falsy id). -/
def sanitizeWorkspace (workspace : Workspace) (c : Nat) : Workspace × Nat :=
  let tabs := workspace.tabs.filter
    (fun tab => decide (tab.docId ≠ 0) && (objGet workspace.documents tab.docId).isSome)
  match tabs with
  | [] =>
      let created := createInitialDocument "" c
      ({ tabs := [{ docId := created.1 }]
         activeDocId := created.1
         documents := [(created.1, created.2.1)] },
       created.2.2)
  | t0 :: rest =>
      let activeDocId :=
        if (objGet workspace.documents workspace.activeDocId).isSome then
          workspace.activeDocId
        else t0.docId
      ({ workspace with tabs := t0 :: rest, activeDocId := activeDocId }, c)

/-- From `state.ts`.  `none` means the source returned `state` itself (no
active-document change); `some s` means the updater produced a new document.
The source dereferences the active document without a guard (the workspace
invariant guarantees it resolves); a failed lookup is embedded as `none`. -/
def updateActiveDoc (state : EditorAppState) (updater : Document → Option Document) :
    Option EditorAppState :=
  match objGet state.workspace.documents state.workspace.activeDocId with
  | none => none
  | some current =>
    match updater current with
    | none => none
    | some updated =>
        some { state with
                 workspace := { state.workspace with
                   documents := objSet state.workspace.documents
                     state.workspace.activeDocId updated } }

/-- From `state.ts`.  `none` embeds every `return doc;` path of the source
(the callers test those with `===`). -/
def moveCursor (doc : Document) (direction : MoveDir) : Option Document :=
  match objGet doc.nodes doc.cursorId with
  | none => none
  | some cursor =>
    match direction with
    | MoveDir.parent =>
        -- `if (!cursor.parentId) return doc`: the empty-string id (0) is falsy
        match cursor.parentId with
        | none => none
        | some p => if p = 0 then none else some { doc with cursorId := p }
    | MoveDir.child =>
        -- `if (!childId) return doc`: absent or empty-string first child
        match cursor.childrenIds.head? with
        | none => none
        | some childId =>
            if childId = 0 then none else some { doc with cursorId := childId }
    | MoveDir.nextSibling =>
        match cursor.parentId with
        | none => none
        | some parentId =>
          if parentId = 0 then none
          else
            match objGet doc.nodes parentId with
            | none => none
            | some parent =>
              match indexOf parent.childrenIds cursor.id with
              | none => none
              | some index =>
                -- `if (!nextId) return doc`
                match parent.childrenIds.get? (index + 1) with
                | none => none
                | some nextId =>
                    if nextId = 0 then none else some { doc with cursorId := nextId }
    | MoveDir.prevSibling =>
        match cursor.parentId with
        | none => none
        | some parentId =>
          if parentId = 0 then none
          else
            match objGet doc.nodes parentId with
            | none => none
            | some parent =>
              match indexOf parent.childrenIds cursor.id with
              | none => none
              | some index =>
                -- source indexing `childrenIds[index - 1]`: for index 0 this is
                -- `childrenIds[-1]`, i.e. undefined; `if (!prevId) return doc`
                if index = 0 then none
                else
                  match parent.childrenIds.get? (index - 1) with
                  | none => none
                  | some prevId =>
                      if prevId = 0 then none else some { doc with cursorId := prevId }

/-- From `state.ts`.  The swap target index is computed in ℤ exactly as the
source computes it in JavaScript numbers. -/
def swapSibling (doc : Document) (direction : SwapDir) : Option Document :=
  match objGet doc.nodes doc.cursorId with
  | none => none
  | some cursor =>
    match cursor.parentId with
    | none => none
    | some parentId =>
      -- `if (!cursor?.parentId) return doc`: the empty-string id (0) is falsy
      if parentId = 0 then none
      else
      match objGet doc.nodes parentId with
      | none => none
      | some parent =>
        match indexOf parent.childrenIds cursor.id with
        | none => none
        | some index =>
          let swapWith : Int :=
            if direction = SwapDir.up then (index : Int) - 1 else (index : Int) + 1
          if swapWith < 0 ∨ (parent.childrenIds.length : Int) ≤ swapWith then none
          else
            let j := swapWith.toNat
            let c := parent.childrenIds
            let nextChildren := (c.set index (c.getD j 0)).set j (c.getD index 0)
            some { doc with
                     nodes := objSet doc.nodes parent.id
                       { parent with childrenIds := nextChildren } }

/-- From `state.ts`.  The fresh id is `c` (the embedded `generateId`); it is
consumed only on the success path, exactly where the source calls
`generateId()`. -/
def addChild (doc : Document) (c : Nat) : Option (Document × NodeId) :=
  match objGet doc.nodes doc.cursorId with
  | none => none
  | some cursor =>
    let newId := c
    let newNode : Node := { id := newId, text := "", parentId := some cursor.id, childrenIds := [] }
    let nextCursorChildren := cursor.childrenIds ++ [newId]
    some ({ doc with
              cursorId := newId
              nodes := objSet (objSet doc.nodes newId newNode) cursor.id
                { cursor with childrenIds := nextCursorChildren } },
          newId)

/-- From `state.ts`. -/
def addSibling (doc : Document) (c : Nat) : Option (Document × NodeId) :=
  match objGet doc.nodes doc.cursorId with
  | none => none
  | some cursor =>
    match cursor.parentId with
    | none => addChild doc c
    | some parentId =>
      match objGet doc.nodes parentId with
      | none => none
      | some parent =>
        match indexOf parent.childrenIds cursor.id with
        | none => none
        | some index =>
          let newId := c
          let newNode : Node :=
            { id := newId, text := "", parentId := some parent.id, childrenIds := [] }
          let nextChildren :=
            parent.childrenIds.take (index + 1) ++ [newId] ++ parent.childrenIds.drop (index + 1)
          some ({ doc with
                    cursorId := newId
                    nodes := objSet (objSet doc.nodes newId newNode) parent.id
                      { parent with childrenIds := nextChildren } },
                newId)

/-- From `state.ts`.  `none` embeds every guard path where the source returns
`doc` itself. -/
def deleteCursorNodeAndPromoteChildren (doc : Document) : Option Document :=
  if doc.cursorId = doc.rootId then none
  else
    match objGet doc.nodes doc.cursorId with
    | none => none
    | some deleting =>
      match deleting.parentId with
      | none => none
      | some parentId =>
        -- `if (!deleting?.parentId) return doc`: the empty-string id (0) is
        -- falsy
        if parentId = 0 then none
        else
        match objGet doc.nodes parentId with
        | none => none
        | some parent =>
          match indexOf parent.childrenIds deleting.id with
          | none => none
          | some index =>
            let promotedIds := deleting.childrenIds
            let nextParentChildren :=
              parent.childrenIds.take index ++ promotedIds ++
                parent.childrenIds.drop (index + 1)
            let n0 := objDelete doc.nodes deleting.id
            let n1 := objSet n0 parent.id { parent with childrenIds := nextParentChildren }
            let n2 := promotedIds.foldl
              (fun acc childId =>
                match objGet acc childId with
                | none => acc
                | some child => objSet acc childId { child with parentId := some parent.id })
              n1
            let nextCursorId :=
              match promotedIds.head? with
              | some c0 => c0
              | none =>
                -- `if (siblingAtIndex)` / `if (prevSibling)`: the
                -- empty-string id (0) is falsy and is skipped; indexing
                -- `nextParentChildren[index - 1]` is undefined for index 0
                -- (`[-1]`)
                let prevFallback :=
                  if index = 0 then parent.id
                  else
                    match nextParentChildren.get? (index - 1) with
                    | some prevSibling =>
                        if prevSibling = 0 then parent.id else prevSibling
                    | none => parent.id
                match nextParentChildren.get? index with
                | some siblingAtIndex =>
                    if siblingAtIndex = 0 then prevFallback else siblingAtIndex
                | none => prevFallback
            some { doc with cursorId := nextCursorId, nodes := n2 }

/-- From `state.ts`: helper for tab positions, `tabs.findIndex(...)` with
`none` for `-1`. -/
def findTabIndex (tabs : List Tab) (docId : DocId) : Option Nat :=
  match tabs with
  | [] => none
  | t :: rest => if t.docId = docId then some 0 else (findTabIndex rest docId).map (fun n => n + 1)

/-- From `state.ts`: the single exhaustive reducer over the action union.
Branches marked "workspace invariant" embed a dereference the source performs
without a guard; they return `state` and every theorem that can reach them
hypothesises that the active document resolves. -/
def editorReducer (state : EditorAppState) (action : EditorAction) : EditorAppState :=
  match action with
  | EditorAction.finishHydration ws =>
      if state.hydrated then state
      else
        match ws with
        | none => { state with hydrated := true }
        | some w =>
            let r := sanitizeWorkspace w state.nextId
            { state with
                hydrated := true
                mode := Mode.normal
                insertOrigin := none
                closeConfirmDocId := none
                workspace := r.1
                nextId := r.2 }
  | EditorAction.setActiveDoc docId =>
      if state.mode = Mode.insert then state
      else if (objGet state.workspace.documents docId).isNone then state
      else if docId = state.workspace.activeDocId then state
      else
        bumpSaveRevision
          { state with workspace := { state.workspace with activeDocId := docId } }
  | EditorAction.switchDocNext =>
      if state.mode = Mode.insert then state
      else
        match findTabIndex state.workspace.tabs state.workspace.activeDocId with
        | none => state
        | some index =>
          match state.workspace.tabs.get? ((index + 1) % state.workspace.tabs.length) with
          | none => state
          | some next =>
            if next.docId = state.workspace.activeDocId then state
            else
              bumpSaveRevision
                { state with workspace := { state.workspace with activeDocId := next.docId } }
  | EditorAction.switchDocPrev =>
      if state.mode = Mode.insert then state
      else
        match findTabIndex state.workspace.tabs state.workspace.activeDocId with
        | none => state
        | some index =>
          -- source: `(index - 1 + tabs.length) % tabs.length`; `index ≥ 0`,
          -- so the numerator equals `index + tabs.length - 1` in ℕ
          let nextIndex := (index + state.workspace.tabs.length - 1) % state.workspace.tabs.length
          match state.workspace.tabs.get? nextIndex with
          | none => state
          | some prev =>
            if prev.docId = state.workspace.activeDocId then state
            else
              bumpSaveRevision
                { state with workspace := { state.workspace with activeDocId := prev.docId } }
  | EditorAction.createDoc =>
      if state.mode = Mode.insert then state
      else
        let created := createInitialDocument "" state.nextId
        bumpSaveRevision
          { state with
              workspace :=
                { tabs := state.workspace.tabs ++ [{ docId := created.1 }]
                  activeDocId := created.1
                  documents := objSet state.workspace.documents created.1 created.2.1 }
              nextId := created.2.2 }
  | EditorAction.requestCloseActiveDoc =>
      if state.mode = Mode.insert then state
      else if state.workspace.tabs.length ≤ 1 then state
      else
        -- `if (state.closeConfirmDocId)`: truthy, so `some 0` (the empty
        -- string) does not count as pending
        match state.closeConfirmDocId with
        | some d =>
            if d ≠ 0 then state
            else { state with closeConfirmDocId := some state.workspace.activeDocId }
        | none => { state with closeConfirmDocId := some state.workspace.activeDocId }
  | EditorAction.cancelCloseConfirm =>
      match state.closeConfirmDocId with
      | none => state
      | some d =>
          if d = 0 then state
          else { state with closeConfirmDocId := none }
  | EditorAction.closeActiveDoc =>
      if state.mode = Mode.insert then state
      else if state.workspace.tabs.length ≤ 1 then state
      else
        match findTabIndex state.workspace.tabs state.workspace.activeDocId with
        | none => state
        | some activeIndex =>
          let closingDocId := state.workspace.activeDocId
          let nextTabs := state.workspace.tabs.filter (fun tab => tab.docId ≠ closingDocId)
          match nextTabs.get? (min activeIndex (nextTabs.length - 1)) with
          | none => state -- workspace invariant: only reachable with duplicate tab ids
          | some nextActiveTab =>
            bumpSaveRevision
              { state with
                  closeConfirmDocId := none
                  workspace :=
                    { tabs := nextTabs
                      activeDocId := nextActiveTab.docId
                      documents := objDelete state.workspace.documents closingDocId } }
  | EditorAction.deleteNode =>
      if state.mode = Mode.insert then state
      else
        match updateActiveDoc state (fun doc =>
          if doc.cursorId = doc.rootId then none
          else
            let snapshot := cloneDocumentState doc.toDocumentState
            match deleteCursorNodeAndPromoteChildren doc with
            | none => none
            | some updated =>
                some { updated with
                         undoStack := doc.undoStack ++ [snapshot]
                         redoStack := [] }) with
        | none => state
        | some next => bumpSaveRevision next
  | EditorAction.selectNode nodeId =>
      if state.mode = Mode.insert then state
      else
        match updateActiveDoc state (fun doc =>
          if (objGet doc.nodes nodeId).isNone then none
          else if doc.cursorId = nodeId then none
          else some { doc with cursorId := nodeId }) with
        | none => state
        | some next => bumpSaveRevision next
  | EditorAction.moveCursor direction =>
      if state.mode = Mode.insert then state
      else
        match updateActiveDoc state (fun doc => moveCursor doc direction) with
        | none => state
        | some next => bumpSaveRevision next
  | EditorAction.swapSibling direction =>
      if state.mode = Mode.insert then state
      else
        match updateActiveDoc state (fun doc => swapSibling doc direction) with
        | none => state
        | some next => bumpSaveRevision next
  | EditorAction.enterInsert =>
      if state.mode = Mode.insert then state
      else
        match objGet state.workspace.documents state.workspace.activeDocId with
        | none => state -- workspace invariant
        | some doc =>
            { state with
                mode := Mode.insert
                insertOrigin := some
                  { docId := state.workspace.activeDocId
                    snapshot := cloneDocumentState doc.toDocumentState } }
  | EditorAction.addChildAndInsert =>
      if state.mode = Mode.insert then state
      else
        match objGet state.workspace.documents state.workspace.activeDocId with
        | none => state -- workspace invariant
        | some current =>
          let before := cloneDocumentState current.toDocumentState
          let nextState :=
            match addChild current state.nextId with
            | none => state
            | some r =>
                { state with
                    workspace := { state.workspace with
                      documents := objSet state.workspace.documents
                        state.workspace.activeDocId r.1 }
                    nextId := state.nextId + 1 }
          bumpSaveRevision
            { nextState with
                mode := Mode.insert
                insertOrigin := some { docId := state.workspace.activeDocId, snapshot := before } }
  | EditorAction.addSiblingAndInsert =>
      if state.mode = Mode.insert then state
      else
        match objGet state.workspace.documents state.workspace.activeDocId with
        | none => state -- workspace invariant
        | some current =>
          let before := cloneDocumentState current.toDocumentState
          let nextState :=
            match addSibling current state.nextId with
            | none => state
            | some r =>
                { state with
                    workspace := { state.workspace with
                      documents := objSet state.workspace.documents
                        state.workspace.activeDocId r.1 }
                    nextId := state.nextId + 1 }
          bumpSaveRevision
            { nextState with
                mode := Mode.insert
                insertOrigin := some { docId := state.workspace.activeDocId, snapshot := before } }
  | EditorAction.setCursorText text =>
      if state.mode ≠ Mode.insert then state
      else
        match updateActiveDoc state (fun doc =>
          match objGet doc.nodes doc.cursorId with
          | none => none
          | some cursor =>
              some { doc with
                       nodes := objSet doc.nodes cursor.id { cursor with text := text } }) with
        | none => state
        | some next => next
  | EditorAction.commitInsert =>
      if state.mode ≠ Mode.insert then state
      else
        let docId := state.workspace.activeDocId
        match state.insertOrigin with
        | none => { state with mode := Mode.normal, insertOrigin := none }
        | some origin =>
          if origin.docId ≠ docId then { state with mode := Mode.normal, insertOrigin := none }
          else
            match objGet state.workspace.documents docId with
            | none => state -- workspace invariant
            | some currentDoc =>
              if documentStateEquals origin.snapshot currentDoc.toDocumentState then
                { state with mode := Mode.normal, insertOrigin := none }
              else
                let base := { state with mode := Mode.normal, insertOrigin := none }
                bumpSaveRevision
                  ((updateActiveDoc base (fun doc =>
                      some { doc with
                               undoStack := doc.undoStack ++ [origin.snapshot]
                               redoStack := [] })).getD base)
  | EditorAction.undo =>
      if state.mode = Mode.insert then state
      else
        match objGet state.workspace.documents state.workspace.activeDocId with
        | none => state -- workspace invariant
        | some d0 =>
          if d0.undoStack.length = 0 then state
          else
            bumpSaveRevision
              ((updateActiveDoc state (fun doc =>
                  match doc.undoStack.getLast? with
                  | none => none
                  | some prev =>
                      some { doc with
                               toDocumentState := cloneDocumentState prev
                               undoStack := doc.undoStack.dropLast
                               redoStack := doc.redoStack ++
                                 [cloneDocumentState doc.toDocumentState] })).getD state)
  | EditorAction.redo =>
      if state.mode = Mode.insert then state
      else
        match objGet state.workspace.documents state.workspace.activeDocId with
        | none => state -- workspace invariant
        | some d0 =>
          if d0.redoStack.length = 0 then state
          else
            bumpSaveRevision
              ((updateActiveDoc state (fun doc =>
                  match doc.redoStack.getLast? with
                  | none => none
                  | some nxt =>
                      some { doc with
                               toDocumentState := cloneDocumentState nxt
                               redoStack := doc.redoStack.dropLast
                               undoStack := doc.undoStack ++
                                 [cloneDocumentState doc.toDocumentState] })).getD state)

/-- Folding a finite sequence of actions from a start state. -/
def applyActions (state : EditorAppState) (actions : List EditorAction) : EditorAppState :=
  actions.foldl editorReducer state

/-- The active document of a state, when it resolves. -/
def activeDoc (state : EditorAppState) : Option Document :=
  objGet state.workspace.documents state.workspace.activeDocId

/-! Layout engine (`layout.ts`).  Coordinates are exact rationals (the
concrete values reached here are dyadic and small, so JavaScript doubles
compute them exactly).  The source recursion has no cycle protection, so it
is embedded with explicit fuel: `none` means the recursion does not
terminate within the given fuel. -/

def NODE_WIDTH : Rat := 180

def NODE_HEIGHT : Rat := 34

def H_GAP : Rat := 80

def V_GAP : Rat := 16

def PADDING_X : Rat := 32

def PADDING_Y : Rat := 32

/-- From `layout.ts`. -/
structure NodePosition where
  x : Rat
  y : Rat
  depth : Nat
deriving DecidableEq

/-- From `layout.ts`. -/
structure LayoutResult where
  positions : List (NodeId × NodePosition)
  contentWidth : Rat
  contentHeight : Rat
deriving DecidableEq

/-- The mutable variables of `computeLayout` (`positions`, `nextY`,
`maxDepth`, `maxY`), threaded explicitly. -/
structure VisitState where
  positions : List (NodeId × NodePosition)
  nextY : Rat
  maxDepth : Nat
  maxY : Rat
deriving DecidableEq

/-- `Math.min(...ys)` over a nonempty list (the source never spreads an
empty one). -/
def listMin (l : List Rat) : Rat :=
  match l with
  | [] => 0
  | x :: xs => xs.foldl min x

/-- `Math.max(...ys)` over a nonempty list. -/
def listMax (l : List Rat) : Rat :=
  match l with
  | [] => 0
  | x :: xs => xs.foldl max x

/-- The `childrenIds.map(visit ...)` traversal of the source, with the
mutable state threaded left to right; `f` is the recursive visit applied to
one child. -/
def visitChildren (f : NodeId → Nat → VisitState → Option (Rat × VisitState)) :
    List NodeId → Nat → VisitState → Option (List Rat × VisitState)
  | [], _, st => some ([], st)
  | c :: cs, depth, st =>
    match f c depth st with
    | none => none
    | some r =>
      match visitChildren f cs depth r.2 with
      | none => none
      | some r2 => some (r.1 :: r2.1, r2.2)

/-- From `layout.ts`: the inner `visit` closure.  Returns the node's assigned
`y` and the updated mutable state. -/
def visit (nodes : List (NodeId × Node)) :
    Nat → NodeId → Nat → VisitState → Option (Rat × VisitState)
  | 0, _, _, _ => none
  | fuel + 1, nodeId, depth, st =>
    match objGet nodes nodeId with
    | none => some (st.nextY, st)
    | some node =>
      let st1 := { st with maxDepth := max st.maxDepth depth }
      if node.childrenIds.length = 0 then
        let y := st1.nextY
        some (y,
          { st1 with
              nextY := st1.nextY + NODE_HEIGHT + V_GAP
              positions := objSet st1.positions nodeId
                { x := PADDING_X + (depth : Rat) * (NODE_WIDTH + H_GAP), y := y, depth := depth }
              maxY := max st1.maxY y })
      else
        match visitChildren (visit nodes fuel) node.childrenIds (depth + 1) st1 with
        | none => none
        | some r =>
          let y := (listMin r.1 + listMax r.1) / 2
          some (y,
            { r.2 with
                positions := objSet r.2.positions nodeId
                  { x := PADDING_X + (depth : Rat) * (NODE_WIDTH + H_GAP), y := y, depth := depth }
                maxY := max r.2.maxY y })

/-- From `layout.ts`: `computeLayout`, with fuel for the unprotected
recursion. -/
def computeLayout (doc : DocumentState) (fuel : Nat) : Option LayoutResult :=
  match visit doc.nodes fuel doc.rootId 0
      { positions := [], nextY := PADDING_Y, maxDepth := 0, maxY := 0 } with
  | none => none
  | some r =>
    some { positions := r.2.positions
           contentWidth :=
             PADDING_X + ((r.2.maxDepth : Rat) + 1) * NODE_WIDTH +
               (r.2.maxDepth : Rat) * H_GAP + PADDING_X
           contentHeight := r.2.maxY + NODE_HEIGHT + PADDING_Y }

/-- Depth-boundedness of the children graph reachable from `id`: every
descending path is shorter than the fuel (missing references stop a path).
This is the termination condition of the source recursion. -/
def boundedBy (nodes : List (NodeId × Node)) : Nat → NodeId → Bool
  | 0, _ => false
  | fuel + 1, id =>
    match objGet nodes id with
    | none => true
    | some n => n.childrenIds.all (boundedBy nodes fuel)

/-! Lemma library for the object-as-association-list primitives. -/

@[simp]
theorem objGet_nil {α : Type} (k : Nat) : objGet ([] : List (Nat × α)) k = none := rfl

theorem objGet_cons {α : Type} (k2 : Nat) (v : α) (rest : List (Nat × α)) (k : Nat) :
    objGet ((k2, v) :: rest) k = if k2 = k then some v else objGet rest k := rfl

@[simp]
theorem objGet_objSet_self {α : Type} (t : List (Nat × α)) (k : Nat) (v : α) :
    objGet (objSet t k v) k = some v := by
  induction t with
  | nil => simp [objSet, objGet]
  | cons p rest ih =>
    obtain ⟨k2, v2⟩ := p
    by_cases h : k2 = k
    · simp [objSet, objGet, h]
    · simp [objSet, objGet, h, ih]

theorem objGet_objSet_ne {α : Type} (t : List (Nat × α)) (k k2 : Nat) (v : α)
    (h : k2 ≠ k) : objGet (objSet t k v) k2 = objGet t k2 := by
  have hk : ¬ (k = k2) := fun hh => h hh.symm
  induction t with
  | nil => simp [objSet, objGet, hk]
  | cons p rest ih =>
    obtain ⟨k3, v3⟩ := p
    by_cases h3 : k3 = k
    · subst h3
      simp [objSet, objGet, hk]
    · by_cases h2 : k3 = k2 <;> simp [objSet, objGet, h3, h2, h, ih]

@[simp]
theorem mem_keys_cons {α : Type} (k k2 : Nat) (v : α) (rest : List (Nat × α)) :
    k ∈ keys ((k2, v) :: rest) ↔ k2 = k ∨ k ∈ keys rest := by
  simp [keys]
  constructor
  · rintro (h | h)
    · exact Or.inl h.symm
    · exact Or.inr (by simpa [keys] using h)
  · rintro (h | h)
    · exact Or.inl h.symm
    · exact Or.inr (by simpa [keys] using h)

theorem objGet_eq_none_iff {α : Type} (t : List (Nat × α)) (k : Nat) :
    objGet t k = none ↔ k ∉ keys t := by
  induction t with
  | nil => simp [keys]
  | cons p rest ih =>
    obtain ⟨k2, v2⟩ := p
    by_cases h : k2 = k <;> simp [objGet, h, ih]

theorem mem_keys_of_objGet {α : Type} {t : List (Nat × α)} {k : Nat} {v : α}
    (h : objGet t k = some v) : k ∈ keys t := by
  by_contra hm
  rw [← objGet_eq_none_iff] at hm
  rw [h] at hm
  exact Option.noConfusion hm

theorem objGet_isSome_of_mem {α : Type} {t : List (Nat × α)} {k : Nat}
    (h : k ∈ keys t) : ∃ v, objGet t k = some v := by
  cases hv : objGet t k with
  | none => exact absurd ((objGet_eq_none_iff t k).mp hv) (by simpa using h)
  | some v => exact ⟨v, rfl⟩

theorem keys_objSet_of_mem {α : Type} {t : List (Nat × α)} {k : Nat} (v : α)
    (h : k ∈ keys t) : keys (objSet t k v) = keys t := by
  induction t with
  | nil => simp [keys] at h
  | cons p rest ih =>
    obtain ⟨k2, v2⟩ := p
    by_cases h2 : k2 = k
    · simp [objSet, keys, h2]
    · have hk : k ∈ keys rest := by
        rcases (mem_keys_cons k k2 v2 rest).mp h with h | h
        · exact absurd h h2
        · exact h
      have ih2 := ih hk
      simp only [objSet, if_neg h2]
      simp [keys] at ih2 ⊢
      exact ih2

theorem objSet_of_not_mem {α : Type} {t : List (Nat × α)} {k : Nat} (v : α)
    (h : k ∉ keys t) : objSet t k v = t ++ [(k, v)] := by
  induction t with
  | nil => simp [objSet]
  | cons p rest ih =>
    obtain ⟨k2, v2⟩ := p
    rw [mem_keys_cons] at h
    push_neg at h
    simp [objSet, h.1, ih h.2]

theorem keys_objSet_subset {α : Type} (t : List (Nat × α)) (k : Nat) (v : α) :
    keys (objSet t k v) ⊆ keys t ++ [k] := by
  by_cases h : k ∈ keys t
  · rw [keys_objSet_of_mem v h]
    exact fun x hx => List.mem_append_left _ hx
  · rw [objSet_of_not_mem v h]
    intro x hx
    simpa [keys] using hx

theorem keys_nodup_objSet {α : Type} {t : List (Nat × α)} {k : Nat} (v : α)
    (h : (keys t).Nodup) : (keys (objSet t k v)).Nodup := by
  by_cases hm : k ∈ keys t
  · rwa [keys_objSet_of_mem v hm]
  · rw [objSet_of_not_mem v hm]
    have hk : keys (t ++ [(k, v)]) = keys t ++ [k] := by simp [keys]
    rw [hk]
    simpa [List.nodup_append] using ⟨h, hm⟩

theorem objDelete_cons {α : Type} (k2 : Nat) (v : α) (rest : List (Nat × α)) (k : Nat) :
    objDelete ((k2, v) :: rest) k =
      if k2 = k then objDelete rest k else (k2, v) :: objDelete rest k := by
  by_cases h : k2 = k <;> simp [objDelete, List.filter_cons, h]

@[simp]
theorem objGet_objDelete_self {α : Type} (t : List (Nat × α)) (k : Nat) :
    objGet (objDelete t k) k = none := by
  induction t with
  | nil => simp [objDelete]
  | cons p rest ih =>
    obtain ⟨k2, v2⟩ := p
    rw [objDelete_cons]
    by_cases h : k2 = k <;> simp [objGet, h, ih]

theorem objGet_objDelete_ne {α : Type} (t : List (Nat × α)) (k k2 : Nat)
    (h : k2 ≠ k) : objGet (objDelete t k) k2 = objGet t k2 := by
  have hk : ¬ (k = k2) := fun hh => h hh.symm
  induction t with
  | nil => simp [objDelete]
  | cons p rest ih =>
    obtain ⟨k3, v3⟩ := p
    rw [objDelete_cons]
    by_cases h3 : k3 = k
    · subst h3
      simp [objGet, hk, ih]
    · by_cases h2 : k3 = k2 <;> simp [objGet, h2, h3, h, ih]

theorem keys_objDelete {α : Type} (t : List (Nat × α)) (k : Nat) :
    keys (objDelete t k) = (keys t).filter (fun x => x ≠ k) := by
  induction t with
  | nil => simp [objDelete, keys]
  | cons p rest ih =>
    obtain ⟨k2, v2⟩ := p
    rw [objDelete_cons]
    by_cases h : k2 = k <;> simp [keys, List.filter_cons, h] at ih ⊢ <;> exact ih

theorem keys_nodup_objDelete {α : Type} {t : List (Nat × α)} (k : Nat)
    (h : (keys t).Nodup) : (keys (objDelete t k)).Nodup := by
  rw [keys_objDelete]
  exact h.filter _

theorem indexOf_lt_length {l : List Nat} {a : Nat} {i : Nat}
    (h : indexOf l a = some i) : i < l.length := by
  induction l generalizing i with
  | nil => simp [indexOf] at h
  | cons x xs ih =>
    by_cases hx : x = a
    · rw [indexOf, if_pos hx] at h
      injection h with h
      subst h
      simp
    · rw [indexOf, if_neg hx] at h
      simp at h
      obtain ⟨j, hj, rfl⟩ := h
      have := ih hj
      simp
      omega

/-- The decomposition of a list at the first occurrence found by `indexOf`. -/
theorem indexOf_decomp {l : List Nat} {a : Nat} {i : Nat}
    (h : indexOf l a = some i) :
    l.take i ++ a :: l.drop (i + 1) = l ∧ a ∉ l.take i := by
  induction l generalizing i with
  | nil => simp [indexOf] at h
  | cons x xs ih =>
    by_cases hx : x = a
    · rw [indexOf, if_pos hx] at h
      injection h with h
      subst h
      simp [hx]
    · rw [indexOf, if_neg hx] at h
      simp at h
      obtain ⟨j, hj, rfl⟩ := h
      obtain ⟨h1, h2⟩ := ih hj
      constructor
      · simpa [List.take, List.drop] using h1
      · simp [List.take]
        exact ⟨fun hh => hx hh.symm, h2⟩

theorem indexOf_get? {l : List Nat} {a : Nat} {i : Nat}
    (h : indexOf l a = some i) : l.get? i = some a := by
  induction l generalizing i with
  | nil => simp [indexOf] at h
  | cons x xs ih =>
    by_cases hx : x = a
    · rw [indexOf, if_pos hx] at h
      injection h with h
      subst h
      simp [hx]
    · rw [indexOf, if_neg hx] at h
      simp at h
      obtain ⟨j, hj, rfl⟩ := h
      simpa using ih hj

theorem indexOf_mem {l : List Nat} {a : Nat} {i : Nat}
    (h : indexOf l a = some i) : a ∈ l := by
  obtain ⟨h1, _⟩ := indexOf_decomp h
  rw [← h1]
  simp

theorem indexOf_of_mem {l : List Nat} {a : Nat} (h : a ∈ l) :
    ∃ i, indexOf l a = some i := by
  induction l with
  | nil => simp at h
  | cons x xs ih =>
    by_cases hx : x = a
    · exact ⟨0, by simp [indexOf, hx]⟩
    · have hm : a ∈ xs := by
        rcases List.mem_cons.mp h with h1 | h1
        · exact absurd h1.symm hx
        · exact h1
      obtain ⟨j, hj⟩ := ih hm
      exact ⟨j + 1, by simp [indexOf, hx, hj]⟩

/-- `cloneDocumentState` is the identity on immutable values. -/
theorem cloneDocumentState_eq (doc : DocumentState) : cloneDocumentState doc = doc := by
  obtain ⟨r, c, nodes⟩ := doc
  simp only [cloneDocumentState]
  congr 1
  induction nodes with
  | nil => rfl
  | cons p rest ih => simp [ih]

/-- The double `set` of `swapSibling` on adjacent positions is a permutation
(the two entries exchanged). -/
theorem set_set_adjacent_perm (l : List Nat) (k : Nat) (h : k + 1 < l.length) :
    ((l.set k (l.getD (k + 1) 0)).set (k + 1) (l.getD k 0)).Perm l := by
  induction l generalizing k with
  | nil => simp at h
  | cons x xs ih =>
    cases k with
    | zero =>
      cases xs with
      | nil => simp at h
      | cons y ys =>
        simp [List.set, List.getD]
        exact List.Perm.swap x y ys
    | succ k2 =>
      simp [List.set, List.getD] at *
      exact ih k2 (by omega)

/-- Characterisation of the child-reparenting `for` loop of
`deleteCursorNodeAndPromoteChildren`. -/
theorem foldl_reparent_spec (pid : NodeId) (cs : List NodeId) :
    ∀ (tbl : List (NodeId × Node)),
    cs.Nodup → (∀ c ∈ cs, ∃ v, objGet tbl c = some v) →
    (∀ x, x ∉ cs →
        objGet (cs.foldl (fun acc childId =>
          match objGet acc childId with
          | none => acc
          | some child => objSet acc childId { child with parentId := some pid }) tbl) x =
        objGet tbl x) ∧
    (∀ c ∈ cs, ∀ v, objGet tbl c = some v →
        objGet (cs.foldl (fun acc childId =>
          match objGet acc childId with
          | none => acc
          | some child => objSet acc childId { child with parentId := some pid }) tbl) c =
        some { v with parentId := some pid }) ∧
    (∀ (res : List (NodeId × Node)),
       res = cs.foldl (fun acc childId =>
          match objGet acc childId with
          | none => acc
          | some child => objSet acc childId { child with parentId := some pid }) tbl →
       keys res = keys tbl) := by
  induction cs with
  | nil => intro tbl _ _; exact ⟨fun x _ => rfl, fun c hc => by simp at hc, fun res hr => by simp [hr]⟩
  | cons c0 cs ih =>
    intro tbl hnd hsome
    obtain ⟨v0, hv0⟩ := hsome c0 (by simp)
    have hnd2 : cs.Nodup := hnd.of_cons
    have hc0 : c0 ∉ cs := by simp at hnd; exact hnd.1
    set tbl1 := objSet tbl c0 { v0 with parentId := some pid } with htbl1
    have hsome2 : ∀ c ∈ cs, ∃ v, objGet tbl1 c = some v := by
      intro c hc
      obtain ⟨v, hv⟩ := hsome c (by simp [hc])
      by_cases hcc : c = c0
      · exact ⟨{ v0 with parentId := some pid }, by simp [htbl1, hcc]⟩
      · exact ⟨v, by rw [htbl1, objGet_objSet_ne _ _ _ _ hcc]; exact hv⟩
    obtain ⟨ihA, ihB, ihC⟩ := ih tbl1 hnd2 hsome2
    have hstep : (c0 :: cs).foldl (fun acc childId =>
          match objGet acc childId with
          | none => acc
          | some child => objSet acc childId { child with parentId := some pid }) tbl =
        cs.foldl (fun acc childId =>
          match objGet acc childId with
          | none => acc
          | some child => objSet acc childId { child with parentId := some pid }) tbl1 := by
      simp [List.foldl_cons, hv0, htbl1]
    refine ⟨?_, ?_, ?_⟩
    · intro x hx
      rw [hstep]
      have hx2 : x ∉ cs := fun hh => hx (by simp [hh])
      have hx0 : x ≠ c0 := fun hh => hx (by simp [hh])
      rw [ihA x hx2, htbl1, objGet_objSet_ne _ _ _ _ hx0]
    · intro c hc v hv
      rw [hstep]
      rcases List.mem_cons.mp hc with rfl | hc2
      · rw [hv0] at hv
        injection hv with hv
        subst hv
        rw [ihA c hc0]
        simp [htbl1]
      · have hcc : c ≠ c0 := fun hh => hc0 (hh ▸ hc2)
        have hv1 : objGet tbl1 c = some v := by
          rw [htbl1, objGet_objSet_ne _ _ _ _ hcc]; exact hv
        exact ihB c hc2 v hv1
    · intro res hr
      rw [hstep] at hr
      rw [ihC res hr, htbl1, keys_objSet_of_mem _ (mem_keys_of_objGet hv0)]

/-! Well-formedness of a document tree (claim C1). -/

/-- Repeated `parentId` traversal: the ancestor `k` steps above `id`, when
every step resolves. -/
def ancestorAt (nodes : List (NodeId × Node)) : Nat → NodeId → Option NodeId
  | 0, id => some id
  | k + 1, id =>
    match objGet nodes id with
    | none => none
    | some n =>
      match n.parentId with
      | none => none
      | some p => ancestorAt nodes k p

/-- A rank function witnessing that parent links strictly descend
(hence the parent graph is acyclic). -/
def RankOK (rank : NodeId → Nat) (nodes : List (NodeId × Node)) : Prop :=
  ∀ id n p, objGet nodes id = some n → n.parentId = some p → rank p < rank id

/-- Tree well-formedness as the claims state it: a unique root with
`parentId = null` sitting at `rootId`, every other node attached to an
existing parent whose `childrenIds` lists it exactly once, and no id
reachable from itself by repeated `parentId` traversal. -/
def WellFormedClaim (d : DocumentState) : Prop :=
  (∃ r, objGet d.nodes d.rootId = some r ∧ r.parentId = none) ∧
  (∀ id n, objGet d.nodes id = some n → n.parentId = none → id = d.rootId) ∧
  (∀ id n p, objGet d.nodes id = some n → n.parentId = some p →
      ∃ pn, objGet d.nodes p = some pn ∧ pn.childrenIds.count id = 1) ∧
  (∀ id n k, objGet d.nodes id = some n → 0 < k → ancestorAt d.nodes k id ≠ some id)

/-- The inductive strengthening of `WellFormedClaim` maintained by every
editor operation. -/
structure TreeWF (d : DocumentState) : Prop where
  keysNodup : (keys d.nodes).Nodup
  rootMem : ∃ r, objGet d.nodes d.rootId = some r ∧ r.parentId = none
  idCoherent : ∀ id n, objGet d.nodes id = some n → n.id = id
  rootUnique : ∀ id n, objGet d.nodes id = some n → n.parentId = none → id = d.rootId
  parentLink : ∀ id n p, objGet d.nodes id = some n → n.parentId = some p →
      ∃ pn, objGet d.nodes p = some pn ∧ pn.childrenIds.count id = 1
  childLink : ∀ id n c, objGet d.nodes id = some n → c ∈ n.childrenIds →
      ∃ cn, objGet d.nodes c = some cn ∧ cn.parentId = some id
  ranked : ∃ rank, RankOK rank d.nodes

/-- Every id stored in the node table is below the id supply `m`. -/
def TreeBound (d : DocumentState) (m : Nat) : Prop :=
  ∀ id, id ∈ keys d.nodes → id < m

/-- A live tree or snapshot in good standing for id supply `m`. -/
def TreeOK (d : DocumentState) (m : Nat) : Prop :=
  TreeWF d ∧ TreeBound d m

/-- A document whose live tree and all history snapshots are in good
standing. -/
def DocOK (doc : Document) (m : Nat) : Prop :=
  TreeOK doc.toDocumentState m ∧
  (∀ s ∈ doc.undoStack, TreeOK s m) ∧
  (∀ s ∈ doc.redoStack, TreeOK s m)

/-- The global reducer invariant: every document of the workspace and the
pending insert-origin snapshot are in good standing for the id supply. -/
def StateOK (s : EditorAppState) : Prop :=
  (∀ docId doc, objGet s.workspace.documents docId = some doc → DocOK doc s.nextId) ∧
  (∀ o, s.insertOrigin = some o → TreeOK o.snapshot s.nextId)

theorem TreeBound_mono {d : DocumentState} {m m2 : Nat} (h : TreeBound d m)
    (hm : m ≤ m2) : TreeBound d m2 :=
  fun id hid => lt_of_lt_of_le (h id hid) hm

theorem TreeOK_mono {d : DocumentState} {m m2 : Nat} (h : TreeOK d m)
    (hm : m ≤ m2) : TreeOK d m2 :=
  ⟨h.1, TreeBound_mono h.2 hm⟩

theorem DocOK_mono {doc : Document} {m m2 : Nat} (h : DocOK doc m)
    (hm : m ≤ m2) : DocOK doc m2 :=
  ⟨TreeOK_mono h.1 hm, fun s hs => TreeOK_mono (h.2.1 s hs) hm,
   fun s hs => TreeOK_mono (h.2.2 s hs) hm⟩

/-- Well-formedness only reads the node table and the root id. -/
theorem TreeWF.congr {d d2 : DocumentState} (h : TreeWF d)
    (hn : d2.nodes = d.nodes) (hr : d2.rootId = d.rootId) : TreeWF d2 := by
  refine ⟨?_, ?_, ?_, ?_, ?_, ?_, ?_⟩ <;> rw [hn] <;> try rw [hr]
  · exact h.keysNodup
  · exact h.rootMem
  · exact h.idCoherent
  · exact h.rootUnique
  · exact h.parentLink
  · exact h.childLink
  · exact h.ranked

/-- Ancestors strictly decrease any witnessing rank, one per step. -/
theorem ancestorAt_rank_le {rank : NodeId → Nat} {nodes : List (NodeId × Node)}
    (hr : RankOK rank nodes) :
    ∀ k id j, ancestorAt nodes k id = some j → rank j + k ≤ rank id := by
  intro k
  induction k with
  | zero => intro id j h; injection h with h; subst h; omega
  | succ k2 ih =>
    intro id j h
    rw [ancestorAt] at h
    cases hn : objGet nodes id with
    | none => simp [hn] at h
    | some n =>
      cases hp : n.parentId with
      | none => simp [hn, hp] at h
      | some p =>
        simp only [hn, hp] at h
        have h1 := ih p j h
        have h2 := hr id n p hn hp
        omega

/-- A ranked table has no id reachable from itself in a positive number of
steps. -/
theorem no_self_ancestor {rank : NodeId → Nat} {nodes : List (NodeId × Node)}
    (hr : RankOK rank nodes) {id : NodeId} {k : Nat} (hk : 0 < k) :
    ancestorAt nodes k id ≠ some id := by
  intro h
  have := ancestorAt_rank_le hr k id id h
  omega

/-- The strengthened invariant implies the claim-level well-formedness. -/
theorem TreeWF.wellFormedClaim {d : DocumentState} (h : TreeWF d) :
    WellFormedClaim d := by
  obtain ⟨rank, hrank⟩ := h.ranked
  exact ⟨h.rootMem, h.rootUnique, h.parentLink,
    fun id n k _ hk => no_self_ancestor hrank hk⟩

/-! Claim C8: root protection of `deleteNode`. -/

/-- C8: for every application state whose active document has its cursor on
the root, the `deleteNode` action returns the application state unchanged
(in particular the node table size, the `rootId`, and both history stacks of
the document are unchanged). -/
theorem deleteNode_root_protection (s : EditorAppState) (d : Document)
    (hd : activeDoc s = some d) (hcr : d.cursorId = d.rootId) :
    editorReducer s EditorAction.deleteNode = s := by
  rw [activeDoc] at hd
  by_cases hm : s.mode = Mode.insert
  · simp [editorReducer, hm]
  · simp [editorReducer, hm, updateActiveDoc, hd, hcr]

/-- Witness for C8 at the initial application state (single root document,
cursor on the root). -/
theorem deleteNode_root_protection_witness :
    activeDoc createInitialAppState = some (createInitialDocument "" 1).2.1 ∧
    (createInitialDocument "" 1).2.1.cursorId = (createInitialDocument "" 1).2.1.rootId ∧
    editorReducer createInitialAppState EditorAction.deleteNode = createInitialAppState :=
  ⟨rfl, rfl, deleteNode_root_protection createInitialAppState (createInitialDocument "" 1).2.1 rfl rfl⟩

/-! Claim C10: atomicity of `deleteNode` on failure. -/

/-- The disjunction of all guard paths on which
`deleteCursorNodeAndPromoteChildren` returns its argument unchanged. -/
def DeleteNoEffect (d : Document) : Prop :=
  d.cursorId = d.rootId ∨
  objGet d.nodes d.cursorId = none ∨
  (∃ n, objGet d.nodes d.cursorId = some n ∧ n.parentId = none) ∨
  (∃ n p, objGet d.nodes d.cursorId = some n ∧ n.parentId = some p ∧
    objGet d.nodes p = none) ∨
  (∃ n p pn, objGet d.nodes d.cursorId = some n ∧ n.parentId = some p ∧
    objGet d.nodes p = some pn ∧ indexOf pn.childrenIds n.id = none)

theorem deleteCursor_none_of_noEffect {d : Document} (h : DeleteNoEffect d) :
    deleteCursorNodeAndPromoteChildren d = none := by
  rcases h with h | h | ⟨n, hn, hp⟩ | ⟨n, p, hn, hp, hpp⟩ | ⟨n, p, pn, hn, hp, hpp, hi⟩
  · simp [deleteCursorNodeAndPromoteChildren, h]
  · by_cases hc : d.cursorId = d.rootId <;>
      simp [deleteCursorNodeAndPromoteChildren, hc, h]
  · by_cases hc : d.cursorId = d.rootId <;>
      simp [deleteCursorNodeAndPromoteChildren, hc, hn, hp]
  · by_cases hc : d.cursorId = d.rootId
    · simp [deleteCursorNodeAndPromoteChildren, hc]
    · by_cases hp0 : p = 0
      · simp [deleteCursorNodeAndPromoteChildren, hc, hn, hp, hp0]
      · simp [deleteCursorNodeAndPromoteChildren, hc, hn, hp, hp0, hpp]
  · by_cases hc : d.cursorId = d.rootId
    · simp [deleteCursorNodeAndPromoteChildren, hc]
    · by_cases hp0 : p = 0
      · simp [deleteCursorNodeAndPromoteChildren, hc, hn, hp, hp0]
      · simp [deleteCursorNodeAndPromoteChildren, hc, hn, hp, hp0, hpp, hi]

/-- C10: when the delete can have no effect on the active document's tree
(cursor on the root, or cursor node / its parent id / parent node / index in
the parent's children missing), the `deleteNode` action returns the entire
application state unchanged: no snapshot is pushed and the redo stack is not
cleared. -/
theorem deleteNode_atomic_on_failure (s : EditorAppState) (d : Document)
    (hm : s.mode = Mode.normal) (hd : activeDoc s = some d)
    (h : DeleteNoEffect d) :
    editorReducer s EditorAction.deleteNode = s := by
  rw [activeDoc] at hd
  have hdel := deleteCursor_none_of_noEffect h
  by_cases hc : d.cursorId = d.rootId
  · simp [editorReducer, hm, updateActiveDoc, hd, hc]
  · simp [editorReducer, hm, updateActiveDoc, hd, hc, hdel]

/-- Witness for C10: a state whose active document's cursor id resolves to no
node (the delete is inert and the state is returned unchanged). -/
def docMissingCursor : Document :=
  { id := 1
    rootId := 10
    cursorId := 11
    nodes := [(10, { id := 10, text := "", parentId := none, childrenIds := [] })]
    undoStack := []
    redoStack := [] }

/-- A state wrapping `docMissingCursor` as its single active document. -/
def stateMissingCursor : EditorAppState :=
  { workspace := { tabs := [{ docId := 1 }], activeDocId := 1, documents := [(1, docMissingCursor)] }
    mode := Mode.normal
    insertOrigin := none
    hydrated := true
    saveRevision := 0
    closeConfirmDocId := none
    nextId := 12 }

theorem deleteNode_atomic_on_failure_witness :
    stateMissingCursor.mode = Mode.normal ∧
    activeDoc stateMissingCursor = some docMissingCursor ∧
    DeleteNoEffect docMissingCursor ∧
    editorReducer stateMissingCursor EditorAction.deleteNode = stateMissingCursor :=
  ⟨rfl, rfl, Or.inr (Or.inl rfl),
   deleteNode_atomic_on_failure stateMissingCursor docMissingCursor rfl rfl
     (Or.inr (Or.inl rfl))⟩

/-! Claim C9: `swapSibling` exchange and frame conditions. -/

/-- The document produced by a successful `swapSibling` (parent `p`, swap of
positions `i` and `j` in its children). -/
def swappedDoc (d : Document) (p : Node) (i j : Nat) : Document :=
  { d with
    nodes := objSet d.nodes p.id
      { p with
        childrenIds :=
          (p.childrenIds.set i (p.childrenIds.getD j 0)).set j (p.childrenIds.getD i 0) } }

/-- C9: in normal mode, `swapSibling` is a no-op for the root (a null — or
falsy empty-string — parent reference) and at the first/last boundary; when
the cursor has a truthy parent and an adjacent sibling in the requested
direction (`up` = index−1, `down` = index+1) it exchanges the cursor node's
entry with that adjacent entry in the parent's `childrenIds` and changes
nothing else: the history stacks, `cursorId`, `rootId`, the set of node ids,
every node's text and every node's `parentId` are unchanged. -/
theorem swapSibling_spec (s : EditorAppState) (d : Document)
    (hm : s.mode = Mode.normal) (hd : activeDoc s = some d) :
    (∀ dir c, objGet d.nodes d.cursorId = some c →
       c.parentId = none ∨ c.parentId = some 0 →
       editorReducer s (EditorAction.swapSibling dir) = s) ∧
    (∀ c pid p i, objGet d.nodes d.cursorId = some c → c.parentId = some pid →
       objGet d.nodes pid = some p → indexOf p.childrenIds c.id = some i →
       ((i = 0 → editorReducer s (EditorAction.swapSibling SwapDir.up) = s) ∧
        (i + 1 = p.childrenIds.length →
           editorReducer s (EditorAction.swapSibling SwapDir.down) = s))) ∧
    (∀ dir c pid p i j, objGet d.nodes d.cursorId = some c → c.parentId = some pid →
       pid ≠ 0 →
       objGet d.nodes pid = some p → p.id = pid → indexOf p.childrenIds c.id = some i →
       ((dir = SwapDir.up ∧ i = j + 1) ∨
        (dir = SwapDir.down ∧ j = i + 1 ∧ j < p.childrenIds.length)) →
       ∃ dd, activeDoc (editorReducer s (EditorAction.swapSibling dir)) = some dd ∧
         objGet dd.nodes pid =
           some { p with childrenIds :=
             (p.childrenIds.set i (p.childrenIds.getD j 0)).set j (p.childrenIds.getD i 0) } ∧
         (∀ x, x ≠ pid → objGet dd.nodes x = objGet d.nodes x) ∧
         dd.undoStack = d.undoStack ∧ dd.redoStack = d.redoStack ∧
         dd.cursorId = d.cursorId ∧ dd.rootId = d.rootId ∧
         keys dd.nodes = keys d.nodes ∧
         (∀ x xn, objGet d.nodes x = some xn →
            ∃ xn2, objGet dd.nodes x = some xn2 ∧ xn2.text = xn.text ∧
              xn2.parentId = xn.parentId)) := by
  rw [activeDoc] at hd
  have hmi : ¬ s.mode = Mode.insert := by rw [hm]; intro hh; exact Mode.noConfusion hh
  refine ⟨?_, ?_, ?_⟩
  · intro dir c hc hp
    rcases hp with hp | hp
    · simp [editorReducer, hmi, updateActiveDoc, hd, swapSibling, hc, hp]
    · simp [editorReducer, hmi, updateActiveDoc, hd, swapSibling, hc, hp]
  · intro c pid p i hc hp hpp hi
    have hlen := indexOf_lt_length hi
    constructor
    · intro h0
      subst h0
      by_cases hpz : pid = 0
      · simp [editorReducer, hmi, updateActiveDoc, hd, swapSibling, hc, hp, hpz]
      · simp [editorReducer, hmi, updateActiveDoc, hd, swapSibling, hc, hp, hpz, hpp, hi]
    · intro hlast
      have hcond : (((i : Nat) : Int) + 1 < 0 ∨
          (p.childrenIds.length : Int) ≤ ((i : Nat) : Int) + 1) := by
        right
        omega
      by_cases hpz : pid = 0
      · simp [editorReducer, hmi, updateActiveDoc, hd, swapSibling, hc, hp, hpz]
      · simp [editorReducer, hmi, updateActiveDoc, hd, swapSibling, hc, hp, hpz, hpp, hi,
          hcond]
  · intro dir c pid p i j hc hp hpz hpp hpid hi hdir
    have hlen := indexOf_lt_length hi
    have hswap : swapSibling d dir = some (swappedDoc d p i j) := by
      rcases hdir with ⟨hdu, hij⟩ | ⟨hdd, hji, hjlen⟩
      · subst hdu
        subst hij
        have h1 : ¬ (((j + 1 : Nat) : Int) - 1 < 0 ∨
            (p.childrenIds.length : Int) ≤ ((j + 1 : Nat) : Int) - 1) := by
          push_neg
          constructor <;> omega
        have h2 : (((j + 1 : Nat) : Int) - 1).toNat = j := by omega
        simp [swapSibling, swappedDoc, hc, hp, hpz, hpp, hi, h1, h2]
        omega
      · subst hdd
        subst hji
        have h1 : ¬ (((i : Nat) : Int) + 1 < 0 ∨
            (p.childrenIds.length : Int) ≤ ((i : Nat) : Int) + 1) := by
          push_neg
          constructor <;> omega
        have h2 : (((i : Nat) : Int) + 1).toNat = i + 1 := by omega
        simp [swapSibling, swappedDoc, hc, hp, hpz, hpp, hi, h1, h2]
    have hpm : pid ∈ keys d.nodes := mem_keys_of_objGet hpp
    refine ⟨swappedDoc d p i j, ?_, ?_, ?_, rfl, rfl, rfl, rfl, ?_, ?_⟩
    · simp [editorReducer, hmi, updateActiveDoc, hd, hswap, activeDoc, bumpSaveRevision]
    · simp only [swappedDoc]
      rw [hpid]
      exact objGet_objSet_self _ _ _
    · intro x hx
      simp only [swappedDoc]
      rw [hpid]
      exact objGet_objSet_ne _ _ _ _ hx
    · simp only [swappedDoc]
      rw [hpid]
      exact keys_objSet_of_mem _ hpm
    · intro x xn hxn
      by_cases hx : x = pid
      · subst hx
        rw [hpp] at hxn
        injection hxn with hxn
        subst hxn
        refine ⟨{ p with childrenIds :=
          (p.childrenIds.set i (p.childrenIds.getD j 0)).set j (p.childrenIds.getD i 0) },
          ?_, rfl, rfl⟩
        simp only [swappedDoc]
        rw [hpid]
        exact objGet_objSet_self _ _ _
      · refine ⟨xn, ?_, rfl, rfl⟩
        simp only [swappedDoc]
        rw [hpid, objGet_objSet_ne _ _ _ _ hx]
        exact hxn

/-- Concrete document for the C9 witness: root 1 with children `[2, 3]`,
cursor at node 2. -/
def swapDoc : Document :=
  { id := 9
    rootId := 1
    cursorId := 2
    nodes := [(1, { id := 1, text := "R", parentId := none, childrenIds := [2, 3] }),
              (2, { id := 2, text := "X", parentId := some 1, childrenIds := [] }),
              (3, { id := 3, text := "Y", parentId := some 1, childrenIds := [] })]
    undoStack := []
    redoStack := [] }

/-- A normal-mode state wrapping `swapDoc`. -/
def swapState : EditorAppState :=
  { workspace := { tabs := [{ docId := 9 }], activeDocId := 9, documents := [(9, swapDoc)] }
    mode := Mode.normal
    insertOrigin := none
    hydrated := true
    saveRevision := 0
    closeConfirmDocId := none
    nextId := 20 }

/-- Witness for C9: swapping node 2 down in `swapDoc` exchanges entries 0 and
1 of the root's children. -/
theorem swapSibling_spec_witness :
    ∃ dd, activeDoc (editorReducer swapState (EditorAction.swapSibling SwapDir.down)) = some dd ∧
      objGet dd.nodes 1 =
        some { id := 1, text := "R", parentId := none,
               childrenIds := (([2, 3] : List Nat).set 0 (([2, 3] : List Nat).getD 1 0)).set 1
                 (([2, 3] : List Nat).getD 0 0) } ∧
      (∀ x, x ≠ 1 → objGet dd.nodes x = objGet swapDoc.nodes x) ∧
      dd.undoStack = swapDoc.undoStack ∧ dd.redoStack = swapDoc.redoStack ∧
      dd.cursorId = swapDoc.cursorId ∧ dd.rootId = swapDoc.rootId ∧
      keys dd.nodes = keys swapDoc.nodes ∧
      (∀ x xn, objGet swapDoc.nodes x = some xn →
         ∃ xn2, objGet dd.nodes x = some xn2 ∧ xn2.text = xn.text ∧
           xn2.parentId = xn.parentId) :=
  (swapSibling_spec swapState swapDoc rfl rfl).2.2 SwapDir.down
    { id := 2, text := "X", parentId := some 1, childrenIds := [] } 1
    { id := 1, text := "R", parentId := none, childrenIds := [2, 3] } 0 1
    rfl rfl (by decide) rfl rfl rfl (Or.inr ⟨rfl, rfl, by decide⟩)

/-! Equation lemmas for the history-carrying reducer cases. -/

/-- Updating the active document and bumping the revision, spelled out. -/
def withActiveDoc (s : EditorAppState) (d : Document) : EditorAppState :=
  bumpSaveRevision
    { s with
      workspace := { s.workspace with
        documents := objSet s.workspace.documents s.workspace.activeDocId d } }

@[simp]
theorem activeDoc_withActiveDoc (s : EditorAppState) (d : Document) :
    activeDoc (withActiveDoc s d) = some d := by
  simp [activeDoc, withActiveDoc, bumpSaveRevision]

@[simp]
theorem mode_withActiveDoc (s : EditorAppState) (d : Document) :
    (withActiveDoc s d).mode = s.mode := rfl

@[simp]
theorem insertOrigin_withActiveDoc (s : EditorAppState) (d : Document) :
    (withActiveDoc s d).insertOrigin = s.insertOrigin := rfl

@[simp]
theorem activeDocId_withActiveDoc (s : EditorAppState) (d : Document) :
    (withActiveDoc s d).workspace.activeDocId = s.workspace.activeDocId := rfl

/-- A successful `deleteNode` pushes the pre-mutation snapshot and clears the
redo stack. -/
theorem reducer_deleteNode_success (s : EditorAppState) (d d9 : Document)
    (hm : s.mode = Mode.normal) (hd : activeDoc s = some d)
    (hdel : deleteCursorNodeAndPromoteChildren d = some d9) :
    editorReducer s EditorAction.deleteNode =
      withActiveDoc s
        { d9 with undoStack := d.undoStack ++ [d.toDocumentState], redoStack := [] } := by
  rw [activeDoc] at hd
  have hmi : ¬ s.mode = Mode.insert := by rw [hm]; intro hh; exact Mode.noConfusion hh
  have hcr : ¬ d.cursorId = d.rootId := by
    intro hh
    rw [deleteCursorNodeAndPromoteChildren, if_pos hh] at hdel
    exact Option.noConfusion hdel
  simp [editorReducer, hmi, updateActiveDoc, hd, hcr, hdel, cloneDocumentState_eq,
    withActiveDoc, bumpSaveRevision]

/-- `undo` pops the top snapshot into the live tree and pushes the current
tree on the redo stack. -/
theorem reducer_undo_eq (s : EditorAppState) (d : Document) (u : List DocumentState)
    (snap : DocumentState) (hm : ¬ s.mode = Mode.insert) (hd : activeDoc s = some d)
    (hu : d.undoStack = u ++ [snap]) :
    editorReducer s EditorAction.undo =
      withActiveDoc s
        { d with
          toDocumentState := snap
          undoStack := u
          redoStack := d.redoStack ++ [d.toDocumentState] } := by
  rw [activeDoc] at hd
  have hne : ¬ d.undoStack.length = 0 := by rw [hu]; simp
  simp [editorReducer, hm, hd, hne, updateActiveDoc, hu, cloneDocumentState_eq,
    withActiveDoc, bumpSaveRevision]

/-- `redo` pops the top redo snapshot into the live tree and pushes the
current tree back on the undo stack. -/
theorem reducer_redo_eq (s : EditorAppState) (d : Document) (u : List DocumentState)
    (snap : DocumentState) (hm : ¬ s.mode = Mode.insert) (hd : activeDoc s = some d)
    (hu : d.redoStack = u ++ [snap]) :
    editorReducer s EditorAction.redo =
      withActiveDoc s
        { d with
          toDocumentState := snap
          redoStack := u
          undoStack := d.undoStack ++ [d.toDocumentState] } := by
  rw [activeDoc] at hd
  have hne : ¬ d.redoStack.length = 0 := by rw [hu]; simp
  simp [editorReducer, hm, hd, hne, updateActiveDoc, hu, cloneDocumentState_eq,
    withActiveDoc, bumpSaveRevision]

/-- A changed `commitInsert` pushes the insert-origin snapshot, clears the
redo stack, and leaves insert mode. -/
theorem reducer_commitInsert_push (s : EditorAppState) (d : Document) (snap : DocumentState)
    (hm : s.mode = Mode.insert)
    (ho : s.insertOrigin = some { docId := s.workspace.activeDocId, snapshot := snap })
    (hd : activeDoc s = some d)
    (hne : documentStateEquals snap d.toDocumentState = false) :
    editorReducer s EditorAction.commitInsert =
      withActiveDoc { s with mode := Mode.normal, insertOrigin := none }
        { d with undoStack := d.undoStack ++ [snap], redoStack := [] } := by
  rw [activeDoc] at hd
  simp [editorReducer, hm, ho, hd, hne, updateActiveDoc, withActiveDoc, bumpSaveRevision]

/-! Claim C2: undo/redo round trip for history-producing operations. -/

/-- The generic round trip: when the active document's undo stack ends in
`snap`, `undo` makes `snap` the live tree and `redo` right after restores the
previous live tree. -/
theorem undo_then_redo (s1 : EditorAppState) (d1 : Document) (u : List DocumentState)
    (snap : DocumentState) (hm1 : ¬ s1.mode = Mode.insert)
    (ha1 : activeDoc s1 = some d1) (hu : d1.undoStack = u ++ [snap]) :
    ∃ d2 d3,
      activeDoc (editorReducer s1 EditorAction.undo) = some d2 ∧
      activeDoc (editorReducer (editorReducer s1 EditorAction.undo) EditorAction.redo) =
        some d3 ∧
      d2.toDocumentState = snap ∧ d3.toDocumentState = d1.toDocumentState := by
  have h2 := reducer_undo_eq s1 d1 u snap hm1 ha1 hu
  have ha2 : activeDoc (editorReducer s1 EditorAction.undo) =
      some { d1 with
             toDocumentState := snap
             undoStack := u
             redoStack := d1.redoStack ++ [d1.toDocumentState] } := by
    rw [h2]
    simp
  have hm2 : ¬ (editorReducer s1 EditorAction.undo).mode = Mode.insert := by
    rw [h2, mode_withActiveDoc]
    exact hm1
  have h3 := reducer_redo_eq (editorReducer s1 EditorAction.undo)
    { d1 with
      toDocumentState := snap
      undoStack := u
      redoStack := d1.redoStack ++ [d1.toDocumentState] }
    d1.redoStack d1.toDocumentState hm2 ha2 rfl
  have ha3 := congrArg activeDoc h3
  rw [activeDoc_withActiveDoc] at ha3
  exact ⟨_, _, ha2, ha3, rfl, rfl⟩

/-- C2: for an application state whose active document is `d`, after a
history-producing operation — an effective `deleteNode` in normal mode, or a
changed insert session committed by `commitInsert` (whose pre-session tree is
the insert-origin snapshot) — `undo` restores the live tree (`rootId`,
`cursorId`, `nodes`) to the tree before the operation, and `redo` after that
`undo` restores the live tree to the tree immediately after the operation. -/
theorem undo_redo_round_trip (s : EditorAppState) (d : Document)
    (hd : activeDoc s = some d) :
    (s.mode = Mode.normal →
      ∀ d9, deleteCursorNodeAndPromoteChildren d = some d9 →
      ∃ d1 d2 d3,
        activeDoc (editorReducer s EditorAction.deleteNode) = some d1 ∧
        activeDoc (editorReducer (editorReducer s EditorAction.deleteNode)
          EditorAction.undo) = some d2 ∧
        activeDoc (editorReducer (editorReducer (editorReducer s EditorAction.deleteNode)
          EditorAction.undo) EditorAction.redo) = some d3 ∧
        d1.toDocumentState = d9.toDocumentState ∧
        d2.toDocumentState = d.toDocumentState ∧
        d3.toDocumentState = d1.toDocumentState) ∧
    (s.mode = Mode.insert →
      ∀ snap, s.insertOrigin = some { docId := s.workspace.activeDocId, snapshot := snap } →
      documentStateEquals snap d.toDocumentState = false →
      ∃ d1 d2 d3,
        activeDoc (editorReducer s EditorAction.commitInsert) = some d1 ∧
        activeDoc (editorReducer (editorReducer s EditorAction.commitInsert)
          EditorAction.undo) = some d2 ∧
        activeDoc (editorReducer (editorReducer (editorReducer s EditorAction.commitInsert)
          EditorAction.undo) EditorAction.redo) = some d3 ∧
        d1.toDocumentState = d.toDocumentState ∧
        d2.toDocumentState = snap ∧
        d3.toDocumentState = d1.toDocumentState) := by
  constructor
  · intro hm d9 hdel
    have h1 := reducer_deleteNode_success s d d9 hm hd hdel
    have ha1 : activeDoc (editorReducer s EditorAction.deleteNode) =
        some { d9 with undoStack := d.undoStack ++ [d.toDocumentState], redoStack := [] } := by
      rw [h1]
      simp
    have hm1 : ¬ (editorReducer s EditorAction.deleteNode).mode = Mode.insert := by
      rw [h1, mode_withActiveDoc, hm]
      intro hh
      exact Mode.noConfusion hh
    obtain ⟨d2, d3, ha2, ha3, ht2, ht3⟩ :=
      undo_then_redo (editorReducer s EditorAction.deleteNode)
        { d9 with undoStack := d.undoStack ++ [d.toDocumentState], redoStack := [] }
        d.undoStack d.toDocumentState hm1 ha1 rfl
    exact ⟨_, d2, d3, ha1, ha2, ha3, rfl, ht2, ht3⟩
  · intro hm snap ho hne
    have h1 := reducer_commitInsert_push s d snap hm ho hd hne
    have ha1 : activeDoc (editorReducer s EditorAction.commitInsert) =
        some { d with undoStack := d.undoStack ++ [snap], redoStack := [] } := by
      rw [h1]
      simp
    have hm1 : ¬ (editorReducer s EditorAction.commitInsert).mode = Mode.insert := by
      rw [h1, mode_withActiveDoc]
      intro hh
      exact Mode.noConfusion hh
    obtain ⟨d2, d3, ha2, ha3, ht2, ht3⟩ :=
      undo_then_redo (editorReducer s EditorAction.commitInsert)
        { d with undoStack := d.undoStack ++ [snap], redoStack := [] }
        d.undoStack snap hm1 ha1 rfl
    exact ⟨_, d2, d3, ha1, ha2, ha3, rfl, ht2, ht3⟩

/-- Concrete document for the C2 witness: root 1 with leaf children `[2, 3]`,
cursor on the last leaf 3. -/
def rtDoc : Document :=
  { id := 7
    rootId := 1
    cursorId := 3
    nodes := [(1, { id := 1, text := "R", parentId := none, childrenIds := [2, 3] }),
              (2, { id := 2, text := "X", parentId := some 1, childrenIds := [] }),
              (3, { id := 3, text := "Y", parentId := some 1, childrenIds := [] })]
    undoStack := []
    redoStack := [] }

/-- A normal-mode state wrapping `rtDoc`. -/
def rtState : EditorAppState :=
  { workspace := { tabs := [{ docId := 7 }], activeDocId := 7, documents := [(7, rtDoc)] }
    mode := Mode.normal
    insertOrigin := none
    hydrated := true
    saveRevision := 0
    closeConfirmDocId := none
    nextId := 30 }

/-- The result of deleting leaf 3 of `rtDoc`: root children `[2]`, cursor on
the prior sibling 2. -/
def rtDel : Document :=
  { id := 7
    rootId := 1
    cursorId := 2
    nodes := [(1, { id := 1, text := "R", parentId := none, childrenIds := [2] }),
              (2, { id := 2, text := "X", parentId := some 1, childrenIds := [] })]
    undoStack := []
    redoStack := [] }

/-- Witness for C2 with the delete operation on `rtState`. -/
theorem undo_redo_round_trip_witness :
    rtState.mode = Mode.normal ∧
    activeDoc rtState = some rtDoc ∧
    deleteCursorNodeAndPromoteChildren rtDoc = some rtDel ∧
    (∃ d1 d2 d3,
      activeDoc (editorReducer rtState EditorAction.deleteNode) = some d1 ∧
      activeDoc (editorReducer (editorReducer rtState EditorAction.deleteNode)
        EditorAction.undo) = some d2 ∧
      activeDoc (editorReducer (editorReducer (editorReducer rtState EditorAction.deleteNode)
        EditorAction.undo) EditorAction.redo) = some d3 ∧
      d1.toDocumentState = rtDel.toDocumentState ∧
      d2.toDocumentState = rtDoc.toDocumentState ∧
      d3.toDocumentState = d1.toDocumentState) :=
  ⟨rfl, rfl, by decide,
   (undo_redo_round_trip rtState rtDoc rfl).1 rfl rtDel (by decide)⟩

/-! Claim C4: `commitInsert` behaviour. -/

/-- Full structural+content equality of two document trees as the claims
phrase it: same `rootId`, same `cursorId`, same number of nodes, and for
every id of the first table a node in both with equal `id`, `text`,
`parentId` and (ordered) `childrenIds`. -/
def DocTreeEq (a b : DocumentState) : Prop :=
  a.rootId = b.rootId ∧ a.cursorId = b.cursorId ∧
  (keys a.nodes).length = (keys b.nodes).length ∧
  ∀ id ∈ keys a.nodes, ∃ an bn,
    objGet a.nodes id = some an ∧ objGet b.nodes id = some bn ∧
    an.id = bn.id ∧ an.text = bn.text ∧ an.parentId = bn.parentId ∧
    an.childrenIds = bn.childrenIds

/-- The comparison routine of the source decides exactly `DocTreeEq`. -/
theorem documentStateEquals_iff (a b : DocumentState) :
    documentStateEquals a b = true ↔ DocTreeEq a b := by
  rw [documentStateEquals, DocTreeEq]
  simp only [Bool.and_eq_true, decide_eq_true_eq, List.all_eq_true]
  constructor
  · rintro ⟨⟨⟨hr, hc⟩, hl⟩, hall⟩
    refine ⟨hr, hc, hl, ?_⟩
    intro id hid
    have h := hall id hid
    cases ha : objGet a.nodes id with
    | none => rw [ha] at h; simp at h
    | some an =>
      cases hb : objGet b.nodes id with
      | none => rw [ha, hb] at h; simp at h
      | some bn =>
        rw [ha, hb] at h
        simp only [Bool.and_eq_true, decide_eq_true_eq] at h
        exact ⟨an, bn, rfl, rfl, h.1.1.1, h.1.1.2, h.1.2, h.2⟩
  · rintro ⟨hr, hc, hl, hall⟩
    refine ⟨⟨⟨hr, hc⟩, hl⟩, ?_⟩
    intro id hid
    obtain ⟨an, bn, ha, hb, h1, h2, h3, h4⟩ := hall id hid
    rw [ha, hb]
    simp [h1, h2, h3, h4]

/-- C4: `commitInsert` is a no-op outside insert mode; in insert mode it
always returns to normal mode and clears the insert origin, and it pushes
exactly the insert-origin snapshot onto the active document's undo stack and
clears its redo stack if and only if the live tree differs from the snapshot
under full structural+content equality; when they are equal both stacks are
unchanged. -/
theorem commitInsert_spec (s : EditorAppState) :
    (s.mode ≠ Mode.insert → editorReducer s EditorAction.commitInsert = s) ∧
    (∀ d, s.mode = Mode.insert → activeDoc s = some d →
      ((editorReducer s EditorAction.commitInsert).mode = Mode.normal ∧
       (editorReducer s EditorAction.commitInsert).insertOrigin = none) ∧
      (∀ snap, s.insertOrigin = some { docId := s.workspace.activeDocId, snapshot := snap } →
        (¬ DocTreeEq snap d.toDocumentState →
          ∃ d1, activeDoc (editorReducer s EditorAction.commitInsert) = some d1 ∧
            d1.undoStack = d.undoStack ++ [snap] ∧ d1.redoStack = []) ∧
        (DocTreeEq snap d.toDocumentState →
          ∃ d1, activeDoc (editorReducer s EditorAction.commitInsert) = some d1 ∧
            d1.undoStack = d.undoStack ∧ d1.redoStack = d.redoStack))) := by
  constructor
  · intro hm
    simp [editorReducer, hm]
  · intro d hm hd
    cases ho : s.insertOrigin with
    | none =>
      have hres : editorReducer s EditorAction.commitInsert =
          { s with mode := Mode.normal, insertOrigin := none } := by
        simp [editorReducer, hm, ho]
      refine ⟨⟨by rw [hres], by rw [hres]⟩, ?_⟩
      intro snap hsnap
      exact absurd hsnap (by simp)
    | some origin =>
      by_cases hod : origin.docId = s.workspace.activeDocId
      · by_cases heq : documentStateEquals origin.snapshot d.toDocumentState
        · have hres : editorReducer s EditorAction.commitInsert =
              { s with mode := Mode.normal, insertOrigin := none } := by
            rw [activeDoc] at hd
            simp [editorReducer, hm, ho, hod, hd, heq]
          refine ⟨⟨by rw [hres], by rw [hres]⟩, ?_⟩
          intro snap hsnap
          injection hsnap with hsnap
          have hs : origin.snapshot = snap := congrArg InsertOrigin.snapshot hsnap
          rw [hs] at heq
          constructor
          · intro hne
            exact absurd ((documentStateEquals_iff _ _).mp heq) hne
          · intro _
            refine ⟨d, ?_, rfl, rfl⟩
            rw [hres]
            rw [activeDoc] at hd ⊢
            exact hd
        · have ho2 : s.insertOrigin =
              some { docId := s.workspace.activeDocId, snapshot := origin.snapshot } := by
            rw [ho, ← hod]
          have hres := reducer_commitInsert_push s d origin.snapshot hm ho2 hd
            (by simpa using heq)
          refine ⟨⟨by rw [hres]; rfl, by rw [hres]; rfl⟩, ?_⟩
          intro snap hsnap
          injection hsnap with hsnap
          have hs : origin.snapshot = snap := congrArg InsertOrigin.snapshot hsnap
          rw [hs] at heq hres
          constructor
          · intro _
            refine ⟨{ d with undoStack := d.undoStack ++ [snap], redoStack := [] },
              ?_, rfl, rfl⟩
            rw [hres]
            simp
          · intro hde
            exact absurd ((documentStateEquals_iff _ _).mpr hde) (by simpa using heq)
      · have hres : editorReducer s EditorAction.commitInsert =
            { s with mode := Mode.normal, insertOrigin := none } := by
          simp [editorReducer, hm, ho, hod]
        refine ⟨⟨by rw [hres], by rw [hres]⟩, ?_⟩
        intro snap hsnap
        injection hsnap with hsnap
        exact absurd (congrArg InsertOrigin.docId hsnap) hod

/-- An insert-mode state over `rtDoc` whose insert origin is the unchanged
live tree (the commit-without-change scenario). -/
def ciState : EditorAppState :=
  { workspace := { tabs := [{ docId := 7 }], activeDocId := 7, documents := [(7, rtDoc)] }
    mode := Mode.insert
    insertOrigin := some { docId := 7, snapshot := rtDoc.toDocumentState }
    hydrated := true
    saveRevision := 0
    closeConfirmDocId := none
    nextId := 30 }

/-- Witness for C4: committing an unchanged insert session on `ciState`
returns to normal mode, clears the origin, and leaves both stacks
unchanged. -/
theorem commitInsert_spec_witness :
    ciState.mode = Mode.insert ∧
    activeDoc ciState = some rtDoc ∧
    ((editorReducer ciState EditorAction.commitInsert).mode = Mode.normal ∧
     (editorReducer ciState EditorAction.commitInsert).insertOrigin = none) ∧
    DocTreeEq rtDoc.toDocumentState rtDoc.toDocumentState ∧
    (∃ d1, activeDoc (editorReducer ciState EditorAction.commitInsert) = some d1 ∧
       d1.undoStack = rtDoc.undoStack ∧ d1.redoStack = rtDoc.redoStack) :=
  ⟨rfl, rfl, ((commitInsert_spec ciState).2 rtDoc rfl rfl).1,
   (documentStateEquals_iff rtDoc.toDocumentState rtDoc.toDocumentState).mp (by decide),
   (((commitInsert_spec ciState).2 rtDoc rfl rfl).2 rtDoc.toDocumentState rfl).2
     ((documentStateEquals_iff rtDoc.toDocumentState rtDoc.toDocumentState).mp (by decide))⟩

/-! Claim C3: functional correctness of `deleteCursorNodeAndPromoteChildren`. -/

/-- The parent's children after the delete: the deleted entry at index `i`
replaced by the promoted children in their original order. -/
def splicedChildren (parent deleting : Node) (i : Nat) : List NodeId :=
  parent.childrenIds.take i ++ deleting.childrenIds ++ parent.childrenIds.drop (i + 1)

/-- The parent node after the delete. -/
def splicedParent (parent deleting : Node) (i : Nat) : Node :=
  { parent with childrenIds := splicedChildren parent deleting i }

/-- A promoted child after the delete (reparented to `pid`). -/
def reparented (cn : Node) (pid : NodeId) : Node :=
  { cn with parentId := some pid }

/-- The document produced by a successful delete (the `foldl` is the
reparenting loop, the `match` the cursor-relocation cascade). -/
def deletedDoc (d : Document) (deleting parent : Node) (i : Nat) : Document :=
  { d with
    cursorId :=
      match deleting.childrenIds.head? with
      | some c0 => c0
      | none =>
        let prevFallback :=
          if i = 0 then parent.id
          else
            match (splicedChildren parent deleting i).get? (i - 1) with
            | some prevSib => if prevSib = 0 then parent.id else prevSib
            | none => parent.id
        match (splicedChildren parent deleting i).get? i with
        | some sib => if sib = 0 then prevFallback else sib
        | none => prevFallback
    nodes := deleting.childrenIds.foldl
      (fun acc childId =>
        match objGet acc childId with
        | none => acc
        | some child => objSet acc childId { child with parentId := some parent.id })
      (objSet (objDelete d.nodes deleting.id) parent.id (splicedParent parent deleting i)) }

/-- Full characterisation of a successful delete (shared by the functional
correctness and well-formedness developments): lookups in the resulting
table, key set, history stacks, and the cursor relocation cascade. -/
theorem deleteCursorNode_lookups (d : Document) (deleting parent : Node) (pid : NodeId) (i : Nat)
    (hroot : d.cursorId ≠ d.rootId)
    (hdel : objGet d.nodes d.cursorId = some deleting)
    (hdid : deleting.id = d.cursorId)
    (hp : deleting.parentId = some pid)
    (hp0 : pid ≠ 0)
    (hpp : objGet d.nodes pid = some parent)
    (hpid : parent.id = pid)
    (hi : indexOf parent.childrenIds deleting.id = some i)
    (hcp : pid ≠ d.cursorId)
    (hprom : ∀ c ∈ deleting.childrenIds,
       c ≠ d.cursorId ∧ c ≠ pid ∧ ∃ cn, objGet d.nodes c = some cn)
    (hnd : deleting.childrenIds.Nodup) :
    ∃ r, deleteCursorNodeAndPromoteChildren d = some r ∧
      r.rootId = d.rootId ∧
      r.undoStack = d.undoStack ∧
      r.redoStack = d.redoStack ∧
      r.id = d.id ∧
      keys r.nodes = (keys d.nodes).filter (fun x => x ≠ d.cursorId) ∧
      objGet r.nodes d.cursorId = none ∧
      objGet r.nodes pid = some (splicedParent parent deleting i) ∧
      (∀ c ∈ deleting.childrenIds, ∀ cn, objGet d.nodes c = some cn →
        objGet r.nodes c = some (reparented cn pid)) ∧
      (∀ x, x ≠ d.cursorId → x ≠ pid → x ∉ deleting.childrenIds →
        objGet r.nodes x = objGet d.nodes x) ∧
      (∀ c0, deleting.childrenIds.head? = some c0 → r.cursorId = c0) ∧
      (deleting.childrenIds = [] →
        (∀ sib, (splicedChildren parent deleting i).get? i = some sib → sib ≠ 0 →
          r.cursorId = sib) ∧
        (((splicedChildren parent deleting i).get? i = none ∨
            (splicedChildren parent deleting i).get? i = some 0) → 1 ≤ i →
          ∀ prevSib, (splicedChildren parent deleting i).get? (i - 1) = some prevSib →
            prevSib ≠ 0 → r.cursorId = prevSib) ∧
        (((splicedChildren parent deleting i).get? i = none ∨
            (splicedChildren parent deleting i).get? i = some 0) →
          (i = 0 ∨ (splicedChildren parent deleting i).get? (i - 1) = none ∨
            (splicedChildren parent deleting i).get? (i - 1) = some 0) →
          r.cursorId = pid)) := by
  have hr : deleteCursorNodeAndPromoteChildren d = some (deletedDoc d deleting parent i) := by
    simp only [deleteCursorNodeAndPromoteChildren, hroot, hdel, hp, hpp, hi, if_neg hroot,
      if_neg hp0]
    rfl
  have hrroot : (deletedDoc d deleting parent i).rootId = d.rootId := rfl
  have hrnodes : (deletedDoc d deleting parent i).nodes = deleting.childrenIds.foldl
      (fun acc childId =>
        match objGet acc childId with
        | none => acc
        | some child => objSet acc childId { child with parentId := some parent.id })
      (objSet (objDelete d.nodes deleting.id) parent.id (splicedParent parent deleting i)) := rfl
  have hrcursor : (deletedDoc d deleting parent i).cursorId =
      (match deleting.childrenIds.head? with
      | some c0 => c0
      | none =>
        let prevFallback :=
          if i = 0 then parent.id
          else
            match (splicedChildren parent deleting i).get? (i - 1) with
            | some prevSib => if prevSib = 0 then parent.id else prevSib
            | none => parent.id
        match (splicedChildren parent deleting i).get? i with
        | some sib => if sib = 0 then prevFallback else sib
        | none => prevFallback) := rfl
  set r := deletedDoc d deleting parent i with hrdef
  have hcur : d.cursorId ≠ pid := fun hh => hcp hh.symm
  have hsome1 : ∀ c ∈ deleting.childrenIds, ∃ v,
      objGet (objSet (objDelete d.nodes deleting.id) parent.id
        (splicedParent parent deleting i)) c = some v := by
    intro c hc
    obtain ⟨hc1, hc2, cn, hcn⟩ := hprom c hc
    refine ⟨cn, ?_⟩
    rw [hpid, objGet_objSet_ne _ _ _ _ hc2, hdid, objGet_objDelete_ne _ _ _ hc1]
    exact hcn
  obtain ⟨ihA, ihB, ihC⟩ := foldl_reparent_spec parent.id deleting.childrenIds
    (objSet (objDelete d.nodes deleting.id) parent.id (splicedParent parent deleting i))
    hnd hsome1
  refine ⟨r, hr, hrroot, rfl, rfl, rfl, ?_, ?_, ?_, ?_, ?_, ?_, ?_⟩
  · rw [hrnodes, ihC _ rfl, hpid]
    have hpmem : pid ∈ keys (objDelete d.nodes deleting.id) := by
      rw [hdid, keys_objDelete]
      exact List.mem_filter.mpr ⟨mem_keys_of_objGet hpp, by simp [hcur.symm]⟩
    rw [keys_objSet_of_mem _ hpmem, hdid, keys_objDelete]
  · rw [hrnodes]
    have hnc : d.cursorId ∉ deleting.childrenIds := fun hh => (hprom _ hh).1 rfl
    rw [ihA _ hnc, hpid, objGet_objSet_ne _ _ _ _ hcur, hdid, objGet_objDelete_self]
  · rw [hrnodes]
    have hnp : pid ∉ deleting.childrenIds := fun hh => (hprom _ hh).2.1 rfl
    rw [ihA _ hnp, hpid]
    exact objGet_objSet_self _ _ _
  · intro c hc cn hcn
    obtain ⟨hc1, hc2, _⟩ := hprom c hc
    have hv1 : objGet (objSet (objDelete d.nodes deleting.id) parent.id
        (splicedParent parent deleting i)) c = some cn := by
      rw [hpid, objGet_objSet_ne _ _ _ _ hc2, hdid, objGet_objDelete_ne _ _ _ hc1]
      exact hcn
    rw [hrnodes, ihB c hc cn hv1]
    simp only [reparented, hpid]
  · intro x hx1 hx2 hx3
    rw [hrnodes, ihA _ hx3, hpid, objGet_objSet_ne _ _ _ _ hx2, hdid,
      objGet_objDelete_ne _ _ _ hx1]
  · intro c0 hc0
    rw [hrcursor, hc0]
  · intro hempty
    rw [hempty] at hrcursor
    simp only [List.head?_nil] at hrcursor
    refine ⟨?_, ?_, ?_⟩
    · intro sib hsib hsib0
      rw [hrcursor]
      simp only [hsib]
      rw [if_neg hsib0]
    · intro hor h1i prevSib hprev hprev0
      have h0 : ¬ i = 0 := by omega
      rw [hrcursor]
      rcases hor with hnone | hzero
      · simp only [hnone, h0, if_false, hprev]
        rw [if_neg hprev0]
      · simp only [hzero]
        rw [if_true]
        simp only [h0, if_false, hprev]
        rw [if_neg hprev0]
    · intro hor1 hor2
      have hfb : (if i = 0 then parent.id
          else match (splicedChildren parent deleting i).get? (i - 1) with
               | some prevSib => if prevSib = 0 then parent.id else prevSib
               | none => parent.id) = pid := by
        rcases hor2 with h0 | hnone2 | hzero2
        · rw [if_pos h0]
          exact hpid
        · by_cases h0 : i = 0
          · rw [if_pos h0]
            exact hpid
          · rw [if_neg h0]
            simp only [hnone2]
            exact hpid
        · by_cases h0 : i = 0
          · rw [if_pos h0]
            exact hpid
          · rw [if_neg h0]
            simp only [hzero2]
            rw [if_true]
            exact hpid
      rcases hor1 with hnone | hzero
      · rw [hrcursor]
        simp only [hnone]
        exact hfb
      · rw [hrcursor]
        simp only [hzero]
        rw [if_true]
        exact hfb

/-- C3: deleting a non-root cursor node at index `i` of its parent (a truthy
parent reference: the empty-string id is falsy and the source then no-ops)
removes it from the node table, splices its children into the parent's
`childrenIds` at position `i` in their original order, rewrites each promoted
child's `parentId` to the parent, leaves every other node untouched, and
relocates the cursor to (a) the first promoted child, else (b) the node now
occupying index `i` if its id is truthy, else (c) the sibling at index `i-1`
if its id is truthy, else (d) the parent. -/
theorem deleteCursorNode_spec (d : Document) (deleting parent : Node) (pid : NodeId) (i : Nat)
    (hroot : d.cursorId ≠ d.rootId)
    (hdel : objGet d.nodes d.cursorId = some deleting)
    (hdid : deleting.id = d.cursorId)
    (hp : deleting.parentId = some pid)
    (hp0 : pid ≠ 0)
    (hpp : objGet d.nodes pid = some parent)
    (hpid : parent.id = pid)
    (hi : indexOf parent.childrenIds deleting.id = some i)
    (hcp : pid ≠ d.cursorId)
    (hprom : ∀ c ∈ deleting.childrenIds,
       c ≠ d.cursorId ∧ c ≠ pid ∧ ∃ cn, objGet d.nodes c = some cn)
    (hnd : deleting.childrenIds.Nodup) :
    ∃ r, deleteCursorNodeAndPromoteChildren d = some r ∧
      r.rootId = d.rootId ∧
      objGet r.nodes d.cursorId = none ∧
      objGet r.nodes pid = some (splicedParent parent deleting i) ∧
      (∀ c ∈ deleting.childrenIds, ∀ cn, objGet d.nodes c = some cn →
        objGet r.nodes c = some (reparented cn pid)) ∧
      (∀ x, x ≠ d.cursorId → x ≠ pid → x ∉ deleting.childrenIds →
        objGet r.nodes x = objGet d.nodes x) ∧
      (∀ c0, deleting.childrenIds.head? = some c0 → r.cursorId = c0) ∧
      (deleting.childrenIds = [] →
        (∀ sib, (splicedChildren parent deleting i).get? i = some sib → sib ≠ 0 →
          r.cursorId = sib) ∧
        (((splicedChildren parent deleting i).get? i = none ∨
            (splicedChildren parent deleting i).get? i = some 0) → 1 ≤ i →
          ∀ prevSib, (splicedChildren parent deleting i).get? (i - 1) = some prevSib →
            prevSib ≠ 0 → r.cursorId = prevSib) ∧
        (((splicedChildren parent deleting i).get? i = none ∨
            (splicedChildren parent deleting i).get? i = some 0) →
          (i = 0 ∨ (splicedChildren parent deleting i).get? (i - 1) = none ∨
            (splicedChildren parent deleting i).get? (i - 1) = some 0) →
          r.cursorId = pid)) := by
  obtain ⟨r, h1, h2, _, _, _, _, h3, h4, h5, h6, h7, h8⟩ :=
    deleteCursorNode_lookups d deleting parent pid i hroot hdel hdid hp hp0 hpp hpid hi hcp
      hprom hnd
  exact ⟨r, h1, h2, h3, h4, h5, h6, h7, h8⟩

/-- The promotion scenario document: root 1 with single child 2, node 2 with
children `[3, 4]`, cursor at 2. -/
def promDoc : Document :=
  { id := 5
    rootId := 1
    cursorId := 2
    nodes := [(1, { id := 1, text := "R", parentId := none, childrenIds := [2] }),
              (2, { id := 2, text := "A", parentId := some 1, childrenIds := [3, 4] }),
              (3, { id := 3, text := "B", parentId := some 2, childrenIds := [] }),
              (4, { id := 4, text := "C", parentId := some 2, childrenIds := [] })]
    undoStack := []
    redoStack := [] }

/-- The deleted node of the promotion scenario. -/
def promA : Node := { id := 2, text := "A", parentId := some 1, childrenIds := [3, 4] }

/-- The root node of the promotion scenario. -/
def promR : Node := { id := 1, text := "R", parentId := none, childrenIds := [2] }

/-- Witness for C3: the promotion scenario (children of the deleted node are
promoted in order, reparented to the root, cursor on the first promoted
child). -/
theorem deleteCursorNode_spec_witness :
    ∃ r, deleteCursorNodeAndPromoteChildren promDoc = some r ∧
      r.rootId = promDoc.rootId ∧
      objGet r.nodes promDoc.cursorId = none ∧
      objGet r.nodes 1 = some (splicedParent promR promA 0) ∧
      (∀ c ∈ promA.childrenIds, ∀ cn, objGet promDoc.nodes c = some cn →
        objGet r.nodes c = some (reparented cn 1)) ∧
      (∀ x, x ≠ promDoc.cursorId → x ≠ 1 → x ∉ promA.childrenIds →
        objGet r.nodes x = objGet promDoc.nodes x) ∧
      (∀ c0, promA.childrenIds.head? = some c0 → r.cursorId = c0) ∧
      (promA.childrenIds = [] →
        (∀ sib, (splicedChildren promR promA 0).get? 0 = some sib → sib ≠ 0 →
          r.cursorId = sib) ∧
        (((splicedChildren promR promA 0).get? 0 = none ∨
            (splicedChildren promR promA 0).get? 0 = some 0) → 1 ≤ 0 →
          ∀ prevSib, (splicedChildren promR promA 0).get? (0 - 1) = some prevSib →
            prevSib ≠ 0 → r.cursorId = prevSib) ∧
        (((splicedChildren promR promA 0).get? 0 = none ∨
            (splicedChildren promR promA 0).get? 0 = some 0) →
          (0 = 0 ∨ (splicedChildren promR promA 0).get? (0 - 1) = none ∨
            (splicedChildren promR promA 0).get? (0 - 1) = some 0) →
          r.cursorId = 1)) :=
  deleteCursorNode_spec promDoc promA promR 1 0 (by decide) rfl rfl rfl (by decide) rfl rfl
    rfl (by decide)
    (by
      intro c hc
      rcases List.mem_cons.mp hc with rfl | hc
      · exact ⟨by decide, by decide, _, rfl⟩
      · rcases List.mem_cons.mp hc with rfl | hc
        · exact ⟨by decide, by decide, _, rfl⟩
        · simp at hc)
    (by decide)

/-! Claim C6: the tab-close protocol. -/

/-- The state produced by a successful `closeActiveDoc` (new active tab
`t`). -/
def closedState (s : EditorAppState) (t : Tab) : EditorAppState :=
  bumpSaveRevision
    { s with
      closeConfirmDocId := none
      workspace :=
        { tabs := s.workspace.tabs.filter (fun tab => tab.docId ≠ s.workspace.activeDocId)
          activeDocId := t.docId
          documents := objDelete s.workspace.documents s.workspace.activeDocId } }

/-- C6 counterexample: from the initial state, create a second document,
request a close (pending = the new document 4), switch back to document 2,
and confirm.  The document that is removed is the active document 2, while
the pending document 4 survives — `closeActiveDoc` does not remove the
document recorded as pending. -/
theorem closeActiveDoc_removes_active_not_pending :
    (applyActions createInitialAppState
      [EditorAction.createDoc, EditorAction.requestCloseActiveDoc,
       EditorAction.setActiveDoc 2]).closeConfirmDocId = some 4 ∧
    (objGet (applyActions createInitialAppState
      [EditorAction.createDoc, EditorAction.requestCloseActiveDoc,
       EditorAction.setActiveDoc 2, EditorAction.closeActiveDoc]).workspace.documents 4).isSome
      = true ∧
    objGet (applyActions createInitialAppState
      [EditorAction.createDoc, EditorAction.requestCloseActiveDoc,
       EditorAction.setActiveDoc 2, EditorAction.closeActiveDoc]).workspace.documents 2
      = none ∧
    (applyActions createInitialAppState
      [EditorAction.createDoc, EditorAction.requestCloseActiveDoc,
       EditorAction.setActiveDoc 2, EditorAction.closeActiveDoc]).closeConfirmDocId = none :=
  ⟨rfl, rfl, rfl, rfl⟩

/-- C6 (amended): `requestCloseActiveDoc` is a no-op when one tab remains or
a close is already pending, and otherwise only records the active document as
pending; `closeActiveDoc` never reduces the tabs below one and, on success,
removes the active document (the pending one precisely when the active
document has not changed since the request), clears the pending state, and
activates the tab now occupying the closed tab's former index clamped to the
last valid index. -/
theorem closeProtocol_spec (s : EditorAppState) :
    (s.workspace.tabs.length ≤ 1 → editorReducer s EditorAction.requestCloseActiveDoc = s) ∧
    (∀ dpend, s.closeConfirmDocId = some dpend → dpend ≠ 0 →
       editorReducer s EditorAction.requestCloseActiveDoc = s) ∧
    ((editorReducer s EditorAction.requestCloseActiveDoc).workspace = s.workspace) ∧
    (s.mode = Mode.normal → 1 < s.workspace.tabs.length → s.closeConfirmDocId = none →
       editorReducer s EditorAction.requestCloseActiveDoc =
         { s with closeConfirmDocId := some s.workspace.activeDocId }) ∧
    (1 ≤ s.workspace.tabs.length →
       1 ≤ (editorReducer s EditorAction.closeActiveDoc).workspace.tabs.length) ∧
    (s.mode = Mode.normal → 1 < s.workspace.tabs.length →
       ∀ i, findTabIndex s.workspace.tabs s.workspace.activeDocId = some i →
       ∀ t, (s.workspace.tabs.filter
           (fun tab => tab.docId ≠ s.workspace.activeDocId)).get?
           (min i ((s.workspace.tabs.filter
             (fun tab => tab.docId ≠ s.workspace.activeDocId)).length - 1)) = some t →
       editorReducer s EditorAction.closeActiveDoc = closedState s t) := by
  refine ⟨?_, ?_, ?_, ?_, ?_, ?_⟩
  · intro h1
    by_cases hm : s.mode = Mode.insert <;> simp [editorReducer, hm, h1]
  · intro dpend hpend hne
    by_cases hm : s.mode = Mode.insert
    · simp [editorReducer, hm]
    · by_cases h1 : s.workspace.tabs.length ≤ 1 <;>
        simp [editorReducer, hm, h1, hpend, hne]
  · by_cases hm : s.mode = Mode.insert
    · simp [editorReducer, hm]
    · by_cases h1 : s.workspace.tabs.length ≤ 1
      · simp [editorReducer, hm, h1]
      · cases hpend : s.closeConfirmDocId with
        | none => simp [editorReducer, hm, h1, hpend]
        | some dpend =>
          by_cases hd0 : dpend = 0 <;> simp [editorReducer, hm, h1, hpend, hd0]
  · intro hm h1 hpend
    have hmi : ¬ s.mode = Mode.insert := by rw [hm]; intro hh; exact Mode.noConfusion hh
    have h1n : ¬ s.workspace.tabs.length ≤ 1 := by omega
    simp [editorReducer, hmi, h1n, hpend]
  · intro h1
    by_cases hm : s.mode = Mode.insert
    · have heq : editorReducer s EditorAction.closeActiveDoc = s := by
        simp [editorReducer, hm]
      rw [heq]
      exact h1
    · by_cases hle : s.workspace.tabs.length ≤ 1
      · have heq : editorReducer s EditorAction.closeActiveDoc = s := by
          simp [editorReducer, hm, hle]
        rw [heq]
        exact h1
      · cases hidx : findTabIndex s.workspace.tabs s.workspace.activeDocId with
        | none =>
          have heq : editorReducer s EditorAction.closeActiveDoc = s := by
            simp [editorReducer, hm, hle, hidx]
          rw [heq]
          exact h1
        | some i =>
          cases hget : (s.workspace.tabs.filter
              (fun tab => tab.docId ≠ s.workspace.activeDocId)).get?
              (min i ((s.workspace.tabs.filter
                (fun tab => tab.docId ≠ s.workspace.activeDocId)).length - 1)) with
          | none =>
            have hget2 := hget
            simp only [ne_eq, decide_not, List.get?_eq_getElem?] at hget2
            have heq : editorReducer s EditorAction.closeActiveDoc = s := by
              simp [editorReducer, hm, hle, hidx, hget2]
            rw [heq]
            exact h1
          | some t =>
            have hget2 := hget
            simp only [ne_eq, decide_not, List.get?_eq_getElem?] at hget2
            have heq : editorReducer s EditorAction.closeActiveDoc =
                closedState s t := by
              simp [editorReducer, hm, hle, hidx, hget2, closedState, bumpSaveRevision]
            rw [heq]
            have hne : (s.workspace.tabs.filter
                (fun tab => tab.docId ≠ s.workspace.activeDocId)) ≠ [] := by
              intro hnil
              rw [hnil] at hget
              simp at hget
            have hpos := List.length_pos.mpr hne
            simpa [closedState, bumpSaveRevision] using hpos
  · intro hm h1 i hidx t hget
    have hmi : ¬ s.mode = Mode.insert := by rw [hm]; intro hh; exact Mode.noConfusion hh
    have h1n : ¬ s.workspace.tabs.length ≤ 1 := by omega
    have hget2 := hget
    simp only [ne_eq, decide_not, List.get?_eq_getElem?] at hget2
    simp [editorReducer, hmi, h1n, hidx, hget2, closedState, bumpSaveRevision]

/-- The counterexample scenario state just before the confirm (pending 4,
active 2). -/
def preCloseState : EditorAppState :=
  applyActions createInitialAppState
    [EditorAction.createDoc, EditorAction.requestCloseActiveDoc, EditorAction.setActiveDoc 2]

/-- Witness for C6 (amended): confirming on `preCloseState` closes the
active document 2 and activates tab 4 at the closed tab's former index. -/
theorem closeProtocol_spec_witness :
    preCloseState.mode = Mode.normal ∧
    1 < preCloseState.workspace.tabs.length ∧
    findTabIndex preCloseState.workspace.tabs preCloseState.workspace.activeDocId = some 0 ∧
    (preCloseState.workspace.tabs.filter
      (fun tab => tab.docId ≠ preCloseState.workspace.activeDocId)).get?
      (min 0 ((preCloseState.workspace.tabs.filter
        (fun tab => tab.docId ≠ preCloseState.workspace.activeDocId)).length - 1)) =
      some { docId := 4 } ∧
    editorReducer preCloseState EditorAction.closeActiveDoc =
      closedState preCloseState { docId := 4 } :=
  ⟨rfl, by decide, rfl, rfl,
   (closeProtocol_spec preCloseState).2.2.2.2.2 rfl (by decide) 0 rfl { docId := 4 } rfl⟩

/-! Claim C7: layout determinism / shape dependence. -/

/-- Congruence of the children traversal in the per-child visitor. -/
theorem visitChildren_congr (f1 f2 : NodeId → Nat → VisitState → Option (Rat × VisitState))
    (h : ∀ i d st, f1 i d st = f2 i d st) :
    ∀ l d st, visitChildren f1 l d st = visitChildren f2 l d st := by
  intro l
  induction l with
  | nil => intro d st; rfl
  | cons c cs ih =>
    intro d st
    simp only [visitChildren]
    rw [h c]
    simp only [ih]

/-- The layout traversal only reads node presence and `childrenIds`: two
tables agreeing on those produce identical traversals at every fuel. -/
theorem visit_shape_congr (n1 n2 : List (NodeId × Node))
    (hpt : ∀ id, (objGet n1 id = none ∧ objGet n2 id = none) ∨
      ∃ a b, objGet n1 id = some a ∧ objGet n2 id = some b ∧
        a.childrenIds = b.childrenIds) :
    ∀ fuel id depth st, visit n1 fuel id depth st = visit n2 fuel id depth st := by
  intro fuel
  induction fuel with
  | zero => intro id depth st; rfl
  | succ fuel ih =>
    intro id depth st
    rcases hpt id with ⟨h1, h2⟩ | ⟨a, b, h1, h2, hch⟩
    · simp [visit, h1, h2]
    · simp only [visit, h1, h2]
      rw [hch, visitChildren_congr (visit n1 fuel) (visit n2 fuel) ih]

/-- C7: `computeLayout` is deterministic and depends only on tree shape: two
document states with the same `rootId`, the same node ids, and identical
`parentId`/`childrenIds` structure and order — texts and `cursorId` may
differ — produce identical positions and content bounds (at every fuel). -/
theorem computeLayout_shape_deterministic (d1 d2 : DocumentState)
    (hroot : d1.rootId = d2.rootId)
    (hk : keys d1.nodes = keys d2.nodes)
    (hs : ∀ id ∈ keys d1.nodes, ∃ a b,
      objGet d1.nodes id = some a ∧ objGet d2.nodes id = some b ∧
      a.id = b.id ∧ a.parentId = b.parentId ∧ a.childrenIds = b.childrenIds) :
    ∀ fuel, computeLayout d1 fuel = computeLayout d2 fuel := by
  intro fuel
  have hpt : ∀ id, (objGet d1.nodes id = none ∧ objGet d2.nodes id = none) ∨
      ∃ a b, objGet d1.nodes id = some a ∧ objGet d2.nodes id = some b ∧
        a.childrenIds = b.childrenIds := by
    intro id
    by_cases hid : id ∈ keys d1.nodes
    · obtain ⟨a, b, h1, h2, _, _, hch⟩ := hs id hid
      exact Or.inr ⟨a, b, h1, h2, hch⟩
    · refine Or.inl ⟨?_, ?_⟩
      · exact (objGet_eq_none_iff _ _).mpr hid
      · exact (objGet_eq_none_iff _ _).mpr (by rw [← hk]; exact hid)
  rw [computeLayout, computeLayout, visit_shape_congr d1.nodes d2.nodes hpt fuel, hroot]

/-- Concrete witness pair for C7: same shape, different texts and cursor. -/
def shapeDoc1 : DocumentState :=
  { rootId := 1
    cursorId := 1
    nodes := [(1, { id := 1, text := "alpha", parentId := none, childrenIds := [2] }),
              (2, { id := 2, text := "beta", parentId := some 1, childrenIds := [] })] }

/-- The same shape as `shapeDoc1` with different texts and cursor. -/
def shapeDoc2 : DocumentState :=
  { rootId := 1
    cursorId := 2
    nodes := [(1, { id := 1, text := "gamma", parentId := none, childrenIds := [2] }),
              (2, { id := 2, text := "delta", parentId := some 1, childrenIds := [] })] }

/-- Witness for C7 at fuel 10. -/
theorem computeLayout_shape_deterministic_witness :
    shapeDoc1.rootId = shapeDoc2.rootId ∧
    keys shapeDoc1.nodes = keys shapeDoc2.nodes ∧
    computeLayout shapeDoc1 10 = computeLayout shapeDoc2 10 :=
  ⟨rfl, rfl,
   computeLayout_shape_deterministic shapeDoc1 shapeDoc2 rfl rfl
     (by
       intro id hid
       rcases List.mem_cons.mp hid with rfl | hid
       · exact ⟨_, _, rfl, rfl, rfl, rfl, rfl⟩
       · rcases List.mem_cons.mp hid with rfl | hid
         · exact ⟨_, _, rfl, rfl, rfl, rfl, rfl⟩
         · simp at hid)
     10⟩

/-! Claim C5: failure semantics of `computeLayout`. -/

/-- Totality of the children traversal given a total per-child visitor. -/
theorem visitChildren_total (f : NodeId → Nat → VisitState → Option (Rat × VisitState))
    (l : List NodeId) (h : ∀ c ∈ l, ∀ d st, (f c d st).isSome = true) :
    ∀ d st, (visitChildren f l d st).isSome = true := by
  induction l with
  | nil => intro d st; simp [visitChildren]
  | cons c cs ih =>
    intro d st
    obtain ⟨r, hr⟩ := Option.isSome_iff_exists.mp (h c (by simp) d st)
    obtain ⟨r2, hr2⟩ := Option.isSome_iff_exists.mp
      (ih (fun x hx => h x (by simp [hx])) d r.2)
    simp [visitChildren, hr, hr2]

/-- Totality of the traversal under depth-boundedness: every visit succeeds
with the bounding fuel. -/
theorem visit_total (nodes : List (NodeId × Node)) :
    ∀ fuel id, boundedBy nodes fuel id = true →
      ∀ depth st, (visit nodes fuel id depth st).isSome = true := by
  intro fuel
  induction fuel with
  | zero =>
    intro id hb
    rw [boundedBy] at hb
    exact absurd hb (by simp)
  | succ fuel ih =>
    intro id hb depth st
    rw [boundedBy] at hb
    cases hn : objGet nodes id with
    | none => simp [visit, hn]
    | some n =>
      rw [hn] at hb
      have hbc : ∀ c ∈ n.childrenIds, boundedBy nodes fuel c = true := by
        simpa [List.all_eq_true] using hb
      by_cases hemp : n.childrenIds.length = 0
      · simp [visit, hn, hemp]
      · obtain ⟨r, hr⟩ := Option.isSome_iff_exists.mp
          (visitChildren_total (visit nodes fuel) n.childrenIds
            (fun c hc => ih c (hbc c hc)) (depth + 1)
            { st with maxDepth := max st.maxDepth depth })
        simp [visit, hn, hemp, hr]

/-- The children traversal preserves "id x has no position" when the
per-child visitor does. -/
theorem visitChildren_positions_domain
    (f : NodeId → Nat → VisitState → Option (Rat × VisitState)) (x : NodeId)
    (hf : ∀ c d st r, f c d st = some r → objGet st.positions x = none →
      objGet r.2.positions x = none) :
    ∀ l d st r, visitChildren f l d st = some r → objGet st.positions x = none →
      objGet r.2.positions x = none := by
  intro l
  induction l with
  | nil =>
    intro d st r hr hst
    rw [visitChildren] at hr
    injection hr with hr
    rw [← hr]
    exact hst
  | cons c cs ih =>
    intro d st r hr hst
    rw [visitChildren] at hr
    cases hc : f c d st with
    | none => simp [hc] at hr
    | some rc =>
      simp only [hc] at hr
      cases hcs : visitChildren f cs d rc.2 with
      | none => simp [hcs] at hr
      | some rcs =>
        simp only [hcs] at hr
        injection hr with hr
        rw [← hr]
        exact ih d rc.2 rcs hcs (hf c d st rc hc hst)

/-- The traversal assigns positions only to ids present in the node table. -/
theorem visit_positions_domain (nodes : List (NodeId × Node)) (x : NodeId)
    (hx : objGet nodes x = none) :
    ∀ fuel id depth st r, visit nodes fuel id depth st = some r →
      objGet st.positions x = none → objGet r.2.positions x = none := by
  intro fuel
  induction fuel with
  | zero =>
    intro id depth st r hr
    rw [visit] at hr
    exact absurd hr (by simp)
  | succ fuel ih =>
    intro id depth st r hr hst
    rw [visit] at hr
    cases hn : objGet nodes id with
    | none =>
      rw [hn] at hr
      injection hr with hr
      rw [← hr]
      exact hst
    | some n =>
      rw [hn] at hr
      have hne : x ≠ id := by
        intro hh
        rw [hh, hn] at hx
        exact Option.noConfusion hx
      by_cases hemp : n.childrenIds.length = 0
      · simp only [hemp, if_pos] at hr
        injection hr with hr
        rw [← hr]
        simp only []
        rw [objGet_objSet_ne _ _ _ _ hne]
        exact hst
      · simp only [hemp, if_neg, if_false] at hr
        cases hvc : visitChildren (visit nodes fuel) n.childrenIds (depth + 1)
            { st with maxDepth := max st.maxDepth depth } with
        | none => rw [hvc] at hr; exact absurd hr (by simp)
        | some rc =>
          rw [hvc] at hr
          injection hr with hr
          rw [← hr]
          simp only []
          rw [objGet_objSet_ne _ _ _ _ hne]
          exact visitChildren_positions_domain (visit nodes fuel) x ih
            n.childrenIds (depth + 1) _ rc hvc hst

/-- A document whose root references the existing leaf 2 and the missing id
3 (a dangling reference in last position). -/
def danglingDoc : DocumentState :=
  { rootId := 1
    cursorId := 1
    nodes := [(1, { id := 1, text := "", parentId := none, childrenIds := [2, 3] }),
              (2, { id := 2, text := "", parentId := some 1, childrenIds := [] })] }

/-- `danglingDoc` with the dangling reference removed — the tree "as if that
subtree were absent". -/
def prunedDoc : DocumentState :=
  { rootId := 1
    cursorId := 1
    nodes := [(1, { id := 1, text := "", parentId := none, childrenIds := [2] }),
              (2, { id := 2, text := "", parentId := some 1, childrenIds := [] })] }

/-- C5 counterexample: the missing id gets no position, but the layout is NOT
the same as if the subtree were absent — the dangling reference feeds the
running `nextY` into its parent's midpoint, so the root's `y` (57 vs 32) and
the content height (123 vs 98) differ from the pruned tree. -/
theorem computeLayout_missing_not_as_absent :
    (computeLayout danglingDoc 10).map (fun r => objGet r.positions 3) = some none ∧
    (computeLayout danglingDoc 10).map (fun r => objGet r.positions 1) =
      some (some { x := 32, y := 57, depth := 0 }) ∧
    (computeLayout prunedDoc 10).map (fun r => objGet r.positions 1) =
      some (some { x := 32, y := 32, depth := 0 }) ∧
    (computeLayout danglingDoc 10).map LayoutResult.contentHeight = some 123 ∧
    (computeLayout prunedDoc 10).map LayoutResult.contentHeight = some 98 := by
  refine ⟨?_, ?_, ?_, ?_, ?_⟩ <;>
    norm_num [computeLayout, visit, visitChildren, listMin, listMax, objGet, objSet,
      danglingDoc, prunedDoc, NODE_WIDTH, NODE_HEIGHT, H_GAP, V_GAP, PADDING_X, PADDING_Y]

/-- C5 (amended): `computeLayout` terminates on every document whose
children graph from the root is depth-bounded (in particular it never fails
on missing references: traversal stops descending there), and a node id
absent from the table is assigned no position.  The missing reference still
occupies a slot in its parent's midpoint computation (see the
counterexample), so the result is not that of the pruned tree. -/
theorem computeLayout_bounded_spec (doc : DocumentState) (fuel : Nat)
    (hb : boundedBy doc.nodes fuel doc.rootId = true) :
    ∃ res, computeLayout doc fuel = some res ∧
      ∀ x, objGet doc.nodes x = none → objGet res.positions x = none := by
  obtain ⟨r, hr⟩ := Option.isSome_iff_exists.mp
    (visit_total doc.nodes fuel doc.rootId hb 0
      { positions := [], nextY := PADDING_Y, maxDepth := 0, maxY := 0 })
  refine ⟨_, by rw [computeLayout, hr], ?_⟩
  intro x hx
  exact visit_positions_domain doc.nodes x hx fuel doc.rootId 0 _ r hr rfl

/-- Witness for the amended C5 at `danglingDoc` with fuel 10. -/
theorem computeLayout_bounded_spec_witness :
    boundedBy danglingDoc.nodes 10 danglingDoc.rootId = true ∧
    (∃ res, computeLayout danglingDoc 10 = some res ∧
      ∀ x, objGet danglingDoc.nodes x = none → objGet res.positions x = none) :=
  ⟨by decide, computeLayout_bounded_spec danglingDoc 10 (by decide)⟩

/-! Claim C1: preservation lemmas for tree well-formedness. -/

theorem objGet_objSet {α : Type} (t : List (Nat × α)) (k x : Nat) (v : α) :
    objGet (objSet t k v) x = if x = k then some v else objGet t x := by
  by_cases h : x = k
  · subst h
    simp
  · rw [objGet_objSet_ne _ _ _ _ h, if_neg h]

/-- The fresh single-root document tree is well formed. -/
theorem TreeWF_single (rid : NodeId) (t : String) :
    TreeWF { rootId := rid, cursorId := rid,
             nodes := [(rid, { id := rid, text := t, parentId := none, childrenIds := [] })] } := by
  refine ⟨?_, ⟨{ id := rid, text := t, parentId := none, childrenIds := [] },
    by simp [objGet], rfl⟩, ?_, ?_, ?_, ?_, ⟨fun _ => 0, ?_⟩⟩
  · simp [keys]
  · intro id n hn
    rw [objGet_cons] at hn
    by_cases h : rid = id
    · rw [if_pos h] at hn
      injection hn with hn
      rw [← hn]
      exact h
    · rw [if_neg h] at hn
      exact absurd hn (by simp)
  · intro id n hn _
    rw [objGet_cons] at hn
    by_cases h : rid = id
    · exact h.symm
    · rw [if_neg h] at hn
      exact absurd hn (by simp)
  · intro id n p hn hp
    rw [objGet_cons] at hn
    by_cases h : rid = id
    · rw [if_pos h] at hn
      injection hn with hn
      rw [← hn] at hp
      exact absurd hp (by simp)
    · rw [if_neg h] at hn
      exact absurd hn (by simp)
  · intro id n c hn hc
    rw [objGet_cons] at hn
    by_cases h : rid = id
    · rw [if_pos h] at hn
      injection hn with hn
      rw [← hn] at hc
      exact absurd hc (by simp)
    · rw [if_neg h] at hn
      exact absurd hn (by simp)
  · intro id n p hn hp
    rw [objGet_cons] at hn
    by_cases h : rid = id
    · rw [if_pos h] at hn
      injection hn with hn
      rw [← hn] at hp
      exact absurd hp (by simp)
    · rw [if_neg h] at hn
      exact absurd hn (by simp)

/-- Replacing one node with a node of the same id and `parentId` and a
permutation of its `childrenIds` preserves well-formedness (covers
`setCursorText` and `swapSibling`). -/
theorem TreeWF_replace_perm {d : DocumentState} (h : TreeWF d) {k : NodeId}
    {oldn newn : Node} (hk : objGet d.nodes k = some oldn) (hid : newn.id = oldn.id)
    (hp : newn.parentId = oldn.parentId) (hch : newn.childrenIds.Perm oldn.childrenIds) :
    TreeWF { d with nodes := objSet d.nodes k newn } := by
  have hget : ∀ x, objGet (objSet d.nodes k newn) x =
      if x = k then some newn else objGet d.nodes x := fun x => objGet_objSet _ _ _ _
  have hcount : ∀ a, newn.childrenIds.count a = oldn.childrenIds.count a :=
    fun a => hch.count_eq a
  have hmem : ∀ a, a ∈ newn.childrenIds ↔ a ∈ oldn.childrenIds := fun a => hch.mem_iff
  refine ⟨?_, ?_, ?_, ?_, ?_, ?_, ?_⟩
  · simp only []
    rw [keys_objSet_of_mem _ (mem_keys_of_objGet hk)]
    exact h.keysNodup
  · obtain ⟨r, hr, hrp⟩ := h.rootMem
    simp only [hget]
    by_cases hroot : d.rootId = k
    · rw [hroot, hk] at hr
      injection hr with hr
      refine ⟨newn, by rw [if_pos hroot], ?_⟩
      rw [hp, hr]
      exact hrp
    · exact ⟨r, by rw [if_neg hroot]; exact hr, hrp⟩
  · intro id n hn
    rw [hget] at hn
    by_cases hik : id = k
    · rw [if_pos hik] at hn
      injection hn with hn
      rw [← hn, hid]
      rw [hik]
      exact h.idCoherent k oldn hk
    · rw [if_neg hik] at hn
      exact h.idCoherent id n hn
  · intro id n hn hnp
    rw [hget] at hn
    by_cases hik : id = k
    · rw [if_pos hik] at hn
      injection hn with hn
      rw [← hn, hp] at hnp
      rw [hik]
      exact h.rootUnique k oldn hk hnp
    · rw [if_neg hik] at hn
      exact h.rootUnique id n hn hnp
  · intro id n q hn hnp
    rw [hget] at hn
    by_cases hik : id = k
    · rw [if_pos hik] at hn
      injection hn with hn
      rw [← hn, hp] at hnp
      subst hik
      obtain ⟨qn, hqn, hqc⟩ := h.parentLink id oldn q hk hnp
      by_cases hqk : q = id
      · subst hqk
        rw [hk] at hqn
        injection hqn with hqn
        refine ⟨newn, by rw [hget, if_pos rfl], ?_⟩
        rw [hcount, hqn]
        exact hqc
      · exact ⟨qn, by rw [hget, if_neg hqk]; exact hqn, hqc⟩
    · rw [if_neg hik] at hn
      obtain ⟨qn, hqn, hqc⟩ := h.parentLink id n q hn hnp
      by_cases hqk : q = k
      · subst hqk
        rw [hk] at hqn
        injection hqn with hqn
        refine ⟨newn, by rw [hget, if_pos rfl], ?_⟩
        rw [hcount, hqn]
        exact hqc
      · exact ⟨qn, by rw [hget, if_neg hqk]; exact hqn, hqc⟩
  · intro id n c hn hc
    rw [hget] at hn
    by_cases hik : id = k
    · rw [if_pos hik] at hn
      injection hn with hn
      rw [← hn] at hc
      rw [hmem] at hc
      subst hik
      obtain ⟨cn, hcn, hcp⟩ := h.childLink id oldn c hk hc
      by_cases hck : c = id
      · subst hck
        rw [hk] at hcn
        injection hcn with hcn
        refine ⟨newn, by rw [hget, if_pos rfl], ?_⟩
        rw [hp, hcn]
        exact hcp
      · exact ⟨cn, by rw [hget, if_neg hck]; exact hcn, hcp⟩
    · rw [if_neg hik] at hn
      obtain ⟨cn, hcn, hcp⟩ := h.childLink id n c hn hc
      by_cases hck : c = k
      · subst hck
        rw [hk] at hcn
        injection hcn with hcn
        refine ⟨newn, by rw [hget, if_pos rfl], ?_⟩
        rw [hp, hcn]
        exact hcp
      · exact ⟨cn, by rw [hget, if_neg hck]; exact hcn, hcp⟩
  · obtain ⟨rank, hrank⟩ := h.ranked
    refine ⟨rank, ?_⟩
    intro id n q hn hnp
    rw [hget] at hn
    by_cases hik : id = k
    · rw [if_pos hik] at hn
      injection hn with hn
      rw [← hn, hp] at hnp
      rw [hik]
      exact hrank k oldn q hk hnp
    · rw [if_neg hik] at hn
      exact hrank id n q hn hnp

/-- The node table after inserting a fresh empty leaf `newId` under parent
`pid` with new children list `l2`. -/
def addLeafNodes (nodes : List (NodeId × Node)) (pid : NodeId) (p : Node)
    (newId : NodeId) (l2 : List NodeId) : List (NodeId × Node) :=
  objSet
    (objSet nodes newId { id := newId, text := "", parentId := some pid, childrenIds := [] })
    pid
    { p with childrenIds := l2 }

/-- Inserting a fresh empty leaf under parent `pid` (new children list
`a ++ newId :: b` where the old list was `a ++ b`) preserves
well-formedness (covers `addChild` and `addSibling`). -/
theorem TreeWF_add_leaf {d : DocumentState} (h : TreeWF d) {pid : NodeId} {p : Node}
    (hpp : objGet d.nodes pid = some p) (newId : NodeId) (hfresh : newId ∉ keys d.nodes)
    (a b : List NodeId) (hab : p.childrenIds = a ++ b) :
    TreeWF { d with nodes := addLeafNodes d.nodes pid p newId (a ++ newId :: b) } := by
  set nn : Node := { id := newId, text := "", parentId := some pid, childrenIds := [] }
    with hnn
  have hpidk : pid ∈ keys d.nodes := mem_keys_of_objGet hpp
  have hpn : pid ≠ newId := fun hh => hfresh (hh ▸ hpidk)
  have hget : ∀ x, objGet (addLeafNodes d.nodes pid p newId (a ++ newId :: b)) x =
      if x = pid then some { p with childrenIds := a ++ newId :: b }
      else if x = newId then some nn else objGet d.nodes x := by
    intro x
    rw [addLeafNodes, objGet_objSet, objGet_objSet]
  have hnomem : ∀ id n, objGet d.nodes id = some n → newId ∉ n.childrenIds := by
    intro id n hn hmem
    obtain ⟨cn, hcn, _⟩ := h.childLink id n newId hn hmem
    exact hfresh (mem_keys_of_objGet hcn)
  have hnopar : ∀ id n, objGet d.nodes id = some n → n.parentId ≠ some newId := by
    intro id n hn hpar
    obtain ⟨pn, hpn2, _⟩ := h.parentLink id n newId hn hpar
    exact hfresh (mem_keys_of_objGet hpn2)
  have hfreshp : newId ∉ p.childrenIds := hnomem pid p hpp
  have hcount : ∀ x, x ≠ newId →
      (a ++ newId :: b).count x = p.childrenIds.count x := by
    intro x hx
    rw [hab]
    simp [List.count_append, List.count_cons, hx]
  have hcountNew : (a ++ newId :: b).count newId = 1 := by
    have hz : p.childrenIds.count newId = 0 :=
      List.count_eq_zero_of_not_mem hfreshp
    rw [hab] at hz
    simp [List.count_append] at hz
    simp [List.count_append, List.count_cons, hz.1, hz.2]
  have hmem2 : ∀ c, c ∈ a ++ newId :: b ↔ c ∈ p.childrenIds ∨ c = newId := by
    intro c
    rw [hab]
    simp [List.mem_append, List.mem_cons]
    tauto
  refine ⟨?_, ?_, ?_, ?_, ?_, ?_, ?_⟩
  · simp only [addLeafNodes]
    have h1 : (keys (objSet d.nodes newId nn)).Nodup := keys_nodup_objSet _ h.keysNodup
    exact keys_nodup_objSet _ h1
  · obtain ⟨r, hr, hrp⟩ := h.rootMem
    have hrn : d.rootId ≠ newId := fun hh => hfresh (hh ▸ mem_keys_of_objGet hr)
    simp only [hget]
    by_cases hrpid : d.rootId = pid
    · refine ⟨_, by rw [if_pos hrpid], ?_⟩
      rw [hrpid, hpp] at hr
      injection hr with hr
      rw [← hr] at hrp
      exact hrp
    · exact ⟨r, by rw [if_neg hrpid, if_neg hrn]; exact hr, hrp⟩
  · intro id n hn
    rw [hget] at hn
    by_cases h1 : id = pid
    · rw [if_pos h1] at hn
      injection hn with hn
      rw [← hn]
      rw [h1]
      exact h.idCoherent pid p hpp
    · rw [if_neg h1] at hn
      by_cases h2 : id = newId
      · rw [if_pos h2] at hn
        injection hn with hn
        rw [← hn, h2]
      · rw [if_neg h2] at hn
        exact h.idCoherent id n hn
  · intro id n hn hpar
    rw [hget] at hn
    by_cases h1 : id = pid
    · rw [if_pos h1] at hn
      injection hn with hn
      rw [← hn] at hpar
      rw [h1]
      exact h.rootUnique pid p hpp hpar
    · rw [if_neg h1] at hn
      by_cases h2 : id = newId
      · rw [if_pos h2] at hn
        injection hn with hn
        rw [← hn] at hpar
        exact absurd hpar (by simp [hnn])
      · rw [if_neg h2] at hn
        exact h.rootUnique id n hn hpar
  · intro id n q hn hpar
    rw [hget] at hn
    by_cases h1 : id = pid
    · rw [if_pos h1] at hn
      injection hn with hn
      rw [← hn] at hpar
      simp only [] at hpar
      obtain ⟨qn, hqn, hqc⟩ := h.parentLink pid p q hpp hpar
      have hqnew : q ≠ newId := by
        intro hh
        rw [hh] at hpar
        exact hnopar pid p hpp hpar
      by_cases hq1 : q = pid
      · rw [hq1, hpp] at hqn
        injection hqn with hqn
        refine ⟨_, by rw [hget, if_pos hq1], ?_⟩
        simp only []
        rw [h1, hcount pid hpn, hqn]
        exact hqc
      · refine ⟨qn, by rw [hget, if_neg hq1, if_neg hqnew]; exact hqn, ?_⟩
        rw [h1]
        exact hqc
    · rw [if_neg h1] at hn
      by_cases h2 : id = newId
      · rw [if_pos h2] at hn
        injection hn with hn
        rw [← hn] at hpar
        simp only [hnn] at hpar
        injection hpar with hpar
        refine ⟨_, by rw [hget, if_pos hpar.symm], ?_⟩
        simp only []
        rw [h2, hcountNew]
      · rw [if_neg h2] at hn
        obtain ⟨qn, hqn, hqc⟩ := h.parentLink id n q hn hpar
        have hqnew : q ≠ newId := by
          intro hh
          rw [hh] at hpar
          exact hnopar id n hn hpar
        by_cases hq1 : q = pid
        · rw [hq1, hpp] at hqn
          injection hqn with hqn
          refine ⟨_, by rw [hget, if_pos hq1], ?_⟩
          simp only []
          rw [hcount id h2, hqn]
          exact hqc
        · exact ⟨qn, by rw [hget, if_neg hq1, if_neg hqnew]; exact hqn, hqc⟩
  · intro id n c hn hc
    rw [hget] at hn
    by_cases h1 : id = pid
    · rw [if_pos h1] at hn
      injection hn with hn
      rw [← hn] at hc
      simp only [] at hc
      rw [hmem2] at hc
      rcases hc with hc | hc
      · obtain ⟨cn, hcn, hcp⟩ := h.childLink pid p c hpp hc
        have hcnew : c ≠ newId := fun hh => hfreshp (hh ▸ hc)
        by_cases hc1 : c = pid
        · rw [hc1, hpp] at hcn
          injection hcn with hcn
          refine ⟨_, by rw [hget, if_pos hc1], ?_⟩
          simp only []
          rw [h1, hcn]
          exact hcp
        · refine ⟨cn, by rw [hget, if_neg hc1, if_neg hcnew]; exact hcn, ?_⟩
          rw [h1]
          exact hcp
      · have hcpid : c ≠ pid := by rw [hc]; exact fun hh => hpn hh.symm
        refine ⟨nn, by rw [hget, if_neg hcpid, if_pos hc], ?_⟩
        simp [hnn, h1]
    · rw [if_neg h1] at hn
      by_cases h2 : id = newId
      · rw [if_pos h2] at hn
        injection hn with hn
        rw [← hn] at hc
        exact absurd hc (by simp [hnn])
      · rw [if_neg h2] at hn
        obtain ⟨cn, hcn, hcp⟩ := h.childLink id n c hn hc
        have hcnew : c ≠ newId := fun hh => hnomem id n hn (hh ▸ hc)
        by_cases hc1 : c = pid
        · rw [hc1, hpp] at hcn
          injection hcn with hcn
          refine ⟨_, by rw [hget, if_pos hc1], ?_⟩
          simp only []
          rw [hcn]
          exact hcp
        · exact ⟨cn, by rw [hget, if_neg hc1, if_neg hcnew]; exact hcn, hcp⟩
  · obtain ⟨rank, hrank⟩ := h.ranked
    refine ⟨fun x => if x = newId then rank pid + 1 else rank x, ?_⟩
    intro id n q hn hpar
    rw [hget] at hn
    by_cases h1 : id = pid
    · rw [if_pos h1] at hn
      injection hn with hn
      rw [← hn] at hpar
      simp only [] at hpar
      have hqnew : q ≠ newId := by
        intro hh
        rw [hh] at hpar
        exact hnopar pid p hpp hpar
      simp only []
      rw [if_neg hqnew, h1, if_neg hpn]
      exact hrank pid p q hpp hpar
    · rw [if_neg h1] at hn
      by_cases h2 : id = newId
      · rw [if_pos h2] at hn
        injection hn with hn
        rw [← hn] at hpar
        simp only [hnn] at hpar
        injection hpar with hpar
        simp only []
        rw [← hpar, if_neg hpn, h2, if_pos rfl]
        omega
      · rw [if_neg h2] at hn
        have hqnew : q ≠ newId := by
          intro hh
          rw [hh] at hpar
          exact hnopar id n hn hpar
        simp only []
        rw [if_neg hqnew, if_neg h2]
        exact hrank id n q hn hpar

/-- Inversion of a successful delete: the guards that the source checked. -/
theorem deleteCursorNode_guards {d r : Document}
    (hr : deleteCursorNodeAndPromoteChildren d = some r) :
    ∃ deleting pid parent i,
      d.cursorId ≠ d.rootId ∧
      objGet d.nodes d.cursorId = some deleting ∧
      deleting.parentId = some pid ∧
      pid ≠ 0 ∧
      objGet d.nodes pid = some parent ∧
      indexOf parent.childrenIds deleting.id = some i := by
  rw [deleteCursorNodeAndPromoteChildren] at hr
  by_cases h1 : d.cursorId = d.rootId
  · rw [if_pos h1] at hr
    exact Option.noConfusion hr
  · rw [if_neg h1] at hr
    cases h2 : objGet d.nodes d.cursorId with
    | none =>
        simp only [h2] at hr
        exact Option.noConfusion hr
    | some deleting =>
      simp only [h2] at hr
      cases h3 : deleting.parentId with
      | none =>
          simp only [h3] at hr
          exact Option.noConfusion hr
      | some pid =>
        simp only [h3] at hr
        by_cases hp0 : pid = 0
        · rw [if_pos hp0] at hr
          exact Option.noConfusion hr
        · rw [if_neg hp0] at hr
          cases h4 : objGet d.nodes pid with
          | none =>
              simp only [h4] at hr
              exact Option.noConfusion hr
          | some parent =>
            simp only [h4] at hr
            cases h5 : indexOf parent.childrenIds deleting.id with
            | none =>
                simp only [h5] at hr
                exact Option.noConfusion hr
            | some i => exact ⟨deleting, pid, parent, i, h1, rfl, h3, hp0, h4, h5⟩

/-- A successful delete preserves tree well-formedness; the key set only
shrinks, and the history stacks and document id are unchanged. -/
theorem TreeWF_delete {d r : Document} (h : TreeWF d.toDocumentState)
    (hr : deleteCursorNodeAndPromoteChildren d = some r) :
    TreeWF r.toDocumentState ∧ (∀ x, x ∈ keys r.nodes → x ∈ keys d.nodes) ∧
    r.undoStack = d.undoStack ∧ r.redoStack = d.redoStack ∧ r.id = d.id := by
  obtain ⟨deleting, pid, parent, i, hroot, hdel, hp, hp0, hpp, hi⟩ :=
    deleteCursorNode_guards hr
  have hdid : deleting.id = d.cursorId := h.idCoherent _ _ hdel
  have hpid : parent.id = pid := h.idCoherent _ _ hpp
  obtain ⟨rank, hrank⟩ := h.ranked
  have hrankdel : rank pid < rank d.cursorId := hrank _ _ _ hdel hp
  have hcp : pid ≠ d.cursorId := by
    intro hh
    rw [hh] at hrankdel
    omega
  have hchildfacts : ∀ c ∈ deleting.childrenIds,
      ∃ cn, objGet d.nodes c = some cn ∧ cn.parentId = some d.cursorId ∧
        rank d.cursorId < rank c := by
    intro c hc
    obtain ⟨cn, hcn, hcnp⟩ := h.childLink _ _ _ hdel hc
    exact ⟨cn, hcn, hcnp, hrank _ _ _ hcn hcnp⟩
  have hprom : ∀ c ∈ deleting.childrenIds,
      c ≠ d.cursorId ∧ c ≠ pid ∧ ∃ cn, objGet d.nodes c = some cn := by
    intro c hc
    obtain ⟨cn, hcn, hcnp, hrc⟩ := hchildfacts c hc
    refine ⟨?_, ?_, cn, hcn⟩
    · intro hh
      rw [hh] at hrc
      omega
    · intro hh
      rw [hh] at hrc
      omega
  have hcount1 : ∀ c ∈ deleting.childrenIds, deleting.childrenIds.count c = 1 := by
    intro c hc
    obtain ⟨cn, hcn, hcnp, _⟩ := hchildfacts c hc
    obtain ⟨pn, hpn, hpc⟩ := h.parentLink _ _ _ hcn hcnp
    rw [hdel] at hpn
    injection hpn with hpn
    rw [hpn]
    exact hpc
  have hnd : deleting.childrenIds.Nodup := by
    rw [List.nodup_iff_count_le_one]
    intro a
    by_cases ha : a ∈ deleting.childrenIds
    · exact le_of_eq (hcount1 a ha)
    · rw [List.count_eq_zero.mpr ha]
      omega
  obtain ⟨r2, hr2, hrtEq, hund, hred, hid2, hkeys, hnone, hppid, hchild, hother, _, _⟩ :=
    deleteCursorNode_lookups d deleting parent pid i hroot hdel hdid hp hp0 hpp hpid hi hcp
      hprom hnd
  rw [hr] at hr2
  injection hr2 with hr2
  subst hr2
  obtain ⟨hdecomp, _⟩ := indexOf_decomp hi
  rw [hdid] at hdecomp
  obtain ⟨pn0, hpn0, hcnt0⟩ := h.parentLink _ _ _ hdel hp
  rw [hpp] at hpn0
  injection hpn0 with hpn0
  rw [← hpn0] at hcnt0
  have hcnt0s : (parent.childrenIds.take i).count d.cursorId = 0 ∧
      (parent.childrenIds.drop (i + 1)).count d.cursorId = 0 := by
    rw [← hdecomp, List.count_append, List.count_cons] at hcnt0
    have hone : (if (d.cursorId == d.cursorId) = true then 1 else 0) = 1 := if_pos (by simp)
    rw [hone] at hcnt0
    omega
  have hcurtake : d.cursorId ∉ parent.childrenIds.take i :=
    List.count_eq_zero.mp hcnt0s.1
  have hcurdrop : d.cursorId ∉ parent.childrenIds.drop (i + 1) :=
    List.count_eq_zero.mp hcnt0s.2
  have hsub_take : ∀ x ∈ parent.childrenIds.take i, x ∈ parent.childrenIds :=
    fun x hx => List.take_subset _ _ hx
  have hsub_drop : ∀ x ∈ parent.childrenIds.drop (i + 1), x ∈ parent.childrenIds :=
    fun x hx => List.drop_subset _ _ hx
  have hdisj : ∀ c ∈ parent.childrenIds, c ∉ deleting.childrenIds := by
    intro c hcmem hcdel
    obtain ⟨cn, hcn, hcnp, _⟩ := hchildfacts c hcdel
    obtain ⟨cn2, hcn2, hcp2⟩ := h.childLink _ _ _ hpp hcmem
    rw [hcn] at hcn2
    injection hcn2 with hcn2
    rw [← hcn2] at hcp2
    rw [hcnp] at hcp2
    injection hcp2 with hcp2
    exact hcp hcp2.symm
  have hpar_unique : ∀ c cn, objGet d.nodes c = some cn → c ∈ deleting.childrenIds →
      cn.parentId = some d.cursorId := by
    intro c cn hcn hcdel
    obtain ⟨cn2, hcn2, hcnp, _⟩ := hchildfacts c hcdel
    rw [hcn] at hcn2
    injection hcn2 with hcn2
    rw [← hcn2] at hcnp
    exact hcnp
  have hcases : ∀ x n, objGet r.nodes x = some n →
      (x = pid ∧ n = splicedParent parent deleting i) ∨
      (x ≠ d.cursorId ∧ x ≠ pid ∧ x ∈ deleting.childrenIds ∧
        ∃ cn, objGet d.nodes x = some cn ∧ n = reparented cn pid) ∨
      (x ≠ d.cursorId ∧ x ≠ pid ∧ x ∉ deleting.childrenIds ∧ objGet d.nodes x = some n) := by
    intro x n hn
    by_cases h1 : x = d.cursorId
    · rw [h1, hnone] at hn
      exact Option.noConfusion hn
    · by_cases h2 : x = pid
      · left
        refine ⟨h2, ?_⟩
        rw [h2, hppid] at hn
        injection hn with hn
        exact hn.symm
      · by_cases h3 : x ∈ deleting.childrenIds
        · right; left
          obtain ⟨_, _, cn, hcn⟩ := hprom x h3
          refine ⟨h1, h2, h3, cn, hcn, ?_⟩
          rw [hchild x h3 cn hcn] at hn
          injection hn with hn
          exact hn.symm
        · right; right
          rw [hother x h1 h2 h3] at hn
          exact ⟨h1, h2, h3, hn⟩
  have hmem_spliced : ∀ c, c ∈ splicedChildren parent deleting i ↔
      c ∈ parent.childrenIds.take i ∨ c ∈ deleting.childrenIds ∨
        c ∈ parent.childrenIds.drop (i + 1) := by
    intro c
    simp [splicedChildren, List.mem_append, or_assoc]
  have hcount_spliced : ∀ c, (splicedChildren parent deleting i).count c =
      (parent.childrenIds.take i).count c + deleting.childrenIds.count c +
        (parent.childrenIds.drop (i + 1)).count c := by
    intro c
    simp only [splicedChildren, List.count_append]
  have hcount_parent : ∀ c, c ≠ d.cursorId →
      (parent.childrenIds.take i).count c + (parent.childrenIds.drop (i + 1)).count c =
        parent.childrenIds.count c := by
    intro c hc
    have hzero : (if (d.cursorId == c) = true then 1 else 0) = 0 :=
      if_neg (by simp [Ne.symm hc])
    conv_rhs => rw [← hdecomp]
    rw [List.count_append, List.count_cons, hzero]
    omega
  refine ⟨⟨?_, ?_, ?_, ?_, ?_, ?_, ?_⟩, ?_, hund, hred, hid2⟩
  · rw [hkeys]
    exact h.keysNodup.filter _
  · obtain ⟨rt, hrtget, hrtp⟩ := h.rootMem
    have hrc : d.rootId ≠ d.cursorId := fun hh => hroot hh.symm
    have hrnotdel : d.rootId ∉ deleting.childrenIds := by
      intro hm
      have hx := hpar_unique _ _ hrtget hm
      rw [hrtp] at hx
      exact Option.noConfusion hx
    by_cases hrp : d.rootId = pid
    · refine ⟨splicedParent parent deleting i, ?_, ?_⟩
      · rw [hrtEq, hrp]
        exact hppid
      · have hpr : parent = rt := by
          rw [hrp, hpp] at hrtget
          exact Option.some.inj hrtget
        show parent.parentId = none
        rw [hpr]
        exact hrtp
    · refine ⟨rt, ?_, hrtp⟩
      rw [hrtEq, hother _ hrc hrp hrnotdel]
      exact hrtget
  · intro id n hn
    rcases hcases id n hn with ⟨h1, h2⟩ | ⟨_, _, _, cn, hcn, h2⟩ | ⟨_, _, _, hget⟩
    · rw [h2, h1]
      show parent.id = pid
      exact hpid
    · rw [h2]
      show cn.id = id
      exact h.idCoherent _ _ hcn
    · exact h.idCoherent _ _ hget
  · intro id n hn hnp
    rw [hrtEq]
    rcases hcases id n hn with ⟨h1, h2⟩ | ⟨_, _, _, cn, hcn, h2⟩ | ⟨_, _, _, hget⟩
    · rw [h2] at hnp
      have hnp2 : parent.parentId = none := hnp
      rw [h1]
      exact h.rootUnique _ _ hpp hnp2
    · rw [h2] at hnp
      simp [reparented] at hnp
    · exact h.rootUnique _ _ hget hnp
  · intro id n q hn hq
    rcases hcases id n hn with ⟨h1, h2⟩ | ⟨hne1, hne2, hmem, cn, hcn, h2⟩ |
      ⟨hne1, hne2, hnm, hget⟩
    · rw [h2] at hq
      have hq2 : parent.parentId = some q := hq
      obtain ⟨qn, hqn, hqc⟩ := h.parentLink _ _ _ hpp hq2
      have hqne : q ≠ d.cursorId := by
        intro hh
        rw [hh, hdel] at hqn
        injection hqn with hqn
        rw [← hqn] at hqc
        have hmm : pid ∈ deleting.childrenIds := by
          by_contra hnm2
          rw [List.count_eq_zero.mpr hnm2] at hqc
          omega
        exact (hprom pid hmm).2.1 rfl
      rw [h1]
      by_cases hqp : q = pid
      · rw [hqp] at hq2
        have := hrank _ _ _ hpp hq2
        omega
      · by_cases hq3 : q ∈ deleting.childrenIds
        · refine ⟨reparented qn pid, hchild q hq3 qn hqn, ?_⟩
          show qn.childrenIds.count pid = 1
          exact hqc
        · exact ⟨qn, by rw [hother q hqne hqp hq3]; exact hqn, hqc⟩
    · rw [h2] at hq
      have hq2 : some pid = some q := hq
      injection hq2 with hq2
      refine ⟨splicedParent parent deleting i, by rw [← hq2]; exact hppid, ?_⟩
      show (splicedChildren parent deleting i).count id = 1
      have hiddp : id ∉ parent.childrenIds := fun hm => hdisj id hm hmem
      have ht0 : (parent.childrenIds.take i).count id = 0 :=
        List.count_eq_zero.mpr (fun hm => hiddp (hsub_take id hm))
      have hd0 : (parent.childrenIds.drop (i + 1)).count id = 0 :=
        List.count_eq_zero.mpr (fun hm => hiddp (hsub_drop id hm))
      rw [hcount_spliced, ht0, hd0, hcount1 id hmem]
    · obtain ⟨qn, hqn, hqc⟩ := h.parentLink _ _ _ hget hq
      have hqne : q ≠ d.cursorId := by
        intro hh
        rw [hh, hdel] at hqn
        injection hqn with hqn
        rw [← hqn] at hqc
        have hmm : id ∈ deleting.childrenIds := by
          by_contra hh2
          rw [List.count_eq_zero.mpr hh2] at hqc
          omega
        exact hnm hmm
      by_cases hqp : q = pid
      · rw [hqp, hpp] at hqn
        injection hqn with hqn
        refine ⟨splicedParent parent deleting i, by rw [hqp]; exact hppid, ?_⟩
        show (splicedChildren parent deleting i).count id = 1
        rw [← hqn] at hqc
        have hpar2 := hcount_parent id hne1
        rw [hcount_spliced, List.count_eq_zero.mpr hnm]
        omega
      · by_cases hq3 : q ∈ deleting.childrenIds
        · refine ⟨reparented qn pid, hchild q hq3 qn hqn, ?_⟩
          show qn.childrenIds.count id = 1
          exact hqc
        · exact ⟨qn, by rw [hother q hqne hqp hq3]; exact hqn, hqc⟩
  · intro id n c hn hc
    rcases hcases id n hn with ⟨h1, h2⟩ | ⟨hne1, hne2, hmem, cn, hcn, h2⟩ |
      ⟨hne1, hne2, hnm, hget⟩
    · rw [h1]
      rw [h2] at hc
      have hc2 : c ∈ splicedChildren parent deleting i := hc
      rw [hmem_spliced] at hc2
      have hside : ∀ c2, c2 ∈ parent.childrenIds → c2 ≠ d.cursorId →
          ∃ cn2, objGet r.nodes c2 = some cn2 ∧ cn2.parentId = some pid := by
        intro c2 hcmem hcne
        obtain ⟨cn2, hcn2, hcp2⟩ := h.childLink _ _ _ hpp hcmem
        have hcnotdel : c2 ∉ deleting.childrenIds := hdisj c2 hcmem
        by_cases hc3 : c2 = pid
        · rw [hc3, hpp] at hcn2
          injection hcn2 with hcn2
          rw [← hcn2] at hcp2
          have := hrank _ _ _ hpp hcp2
          omega
        · exact ⟨cn2, by rw [hother c2 hcne hc3 hcnotdel]; exact hcn2, hcp2⟩
      rcases hc2 with hct | hcd | hcd2
      · exact hside c (hsub_take c hct) (fun hh => hcurtake (hh ▸ hct))
      · obtain ⟨_, _, cn, hcn⟩ := hprom c hcd
        exact ⟨reparented cn pid, hchild c hcd cn hcn, rfl⟩
      · exact hside c (hsub_drop c hcd2) (fun hh => hcurdrop (hh ▸ hcd2))
    · rw [h2] at hc
      have hc2 : c ∈ cn.childrenIds := hc
      obtain ⟨cn2, hcn2, hcp2⟩ := h.childLink _ _ _ hcn hc2
      have hcne : c ≠ d.cursorId := by
        intro hh
        rw [hh, hdel] at hcn2
        injection hcn2 with hcn2
        rw [← hcn2] at hcp2
        rw [hp] at hcp2
        injection hcp2 with hcp2
        exact hne2 hcp2.symm
      by_cases hc3 : c = pid
      · refine ⟨splicedParent parent deleting i, by rw [hc3]; exact hppid, ?_⟩
        show parent.parentId = some id
        rw [hc3, hpp] at hcn2
        injection hcn2 with hcn2
        rw [← hcn2] at hcp2
        exact hcp2
      · by_cases hc4 : c ∈ deleting.childrenIds
        · have hcc := hpar_unique c cn2 hcn2 hc4
          rw [hcc] at hcp2
          injection hcp2 with hcp2
          exact absurd hcp2.symm hne1
        · exact ⟨cn2, by rw [hother c hcne hc3 hc4]; exact hcn2, hcp2⟩
    · obtain ⟨cn2, hcn2, hcp2⟩ := h.childLink _ _ _ hget hc
      have hcne : c ≠ d.cursorId := by
        intro hh
        rw [hh, hdel] at hcn2
        injection hcn2 with hcn2
        rw [← hcn2] at hcp2
        rw [hp] at hcp2
        injection hcp2 with hcp2
        exact hne2 hcp2.symm
      by_cases hc3 : c = pid
      · refine ⟨splicedParent parent deleting i, by rw [hc3]; exact hppid, ?_⟩
        show parent.parentId = some id
        rw [hc3, hpp] at hcn2
        injection hcn2 with hcn2
        rw [← hcn2] at hcp2
        exact hcp2
      · by_cases hc4 : c ∈ deleting.childrenIds
        · have hcc := hpar_unique c cn2 hcn2 hc4
          rw [hcc] at hcp2
          injection hcp2 with hcp2
          exact absurd hcp2.symm hne1
        · exact ⟨cn2, by rw [hother c hcne hc3 hc4]; exact hcn2, hcp2⟩
  · refine ⟨rank, ?_⟩
    intro id n q hn hq
    rcases hcases id n hn with ⟨h1, h2⟩ | ⟨hne1, hne2, hmem, cn, hcn, h2⟩ |
      ⟨_, _, _, hget⟩
    · rw [h2] at hq
      have hq2 : parent.parentId = some q := hq
      rw [h1]
      exact hrank _ _ _ hpp hq2
    · rw [h2] at hq
      have hq2 : some pid = some q := hq
      injection hq2 with hq2
      obtain ⟨cn2, hcn2, hcnp2, hrc⟩ := hchildfacts id hmem
      rw [← hq2]
      omega
    · exact hrank _ _ _ hget hq
  · intro x hx
    rw [hkeys] at hx
    exact (List.mem_filter.mp hx).1

/-! Inversion and bookkeeping lemmas for the per-action preservation proof. -/

/-- `moveCursor` only rewrites the cursor: every other field survives. -/
theorem moveCursor_inv {doc : Document} {dir : MoveDir} {d2 : Document}
    (h : moveCursor doc dir = some d2) :
    d2.nodes = doc.nodes ∧ d2.rootId = doc.rootId ∧
    d2.undoStack = doc.undoStack ∧ d2.redoStack = doc.redoStack ∧ d2.id = doc.id := by
  rw [moveCursor] at h
  repeat' split at h
  all_goals first
    | exact Option.noConfusion h
    | (injection h with h; rw [← h]; exact ⟨rfl, rfl, rfl, rfl, rfl⟩)

/-- The mirrored adjacent swap (`set` at `k+1` first) is also a permutation. -/
theorem set_set_adjacent_perm2 (l : List Nat) (k : Nat) (h : k + 1 < l.length) :
    ((l.set (k + 1) (l.getD k 0)).set k (l.getD (k + 1) 0)).Perm l := by
  rw [List.set_comm _ _ _ (by omega)]
  exact set_set_adjacent_perm l k h

/-- The document with one node's children list rebound (shape of a
`swapSibling` result). -/
def rebindChildren (doc : Document) (parent : Node) (nextChildren : List NodeId) : Document :=
  { doc with
    nodes := objSet doc.nodes parent.id { parent with childrenIds := nextChildren } }

/-- The document after inserting a fresh empty leaf (shape of an `addChild` or
`addSibling` result). -/
def leafAddedDoc (doc : Document) (pid : NodeId) (p : Node) (newId : NodeId)
    (l2 : List NodeId) : Document :=
  { doc with cursorId := newId, nodes := addLeafNodes doc.nodes pid p newId l2 }

/-- Inversion of a successful `swapSibling`: the guards, and the result is the
parent rebound to a permutation of its children. -/
theorem swapSibling_inv {doc : Document} {dir : SwapDir} {d2 : Document}
    (h : swapSibling doc dir = some d2) :
    ∃ cursor parentId parent,
      objGet doc.nodes doc.cursorId = some cursor ∧
      cursor.parentId = some parentId ∧
      objGet doc.nodes parentId = some parent ∧
      ∃ nextChildren, nextChildren.Perm parent.childrenIds ∧
        d2 = rebindChildren doc parent nextChildren := by
  rw [swapSibling] at h
  cases hc : objGet doc.nodes doc.cursorId with
  | none =>
      simp only [hc] at h
      exact Option.noConfusion h
  | some cursor =>
    simp only [hc] at h
    cases hp : cursor.parentId with
    | none =>
        simp only [hp] at h
        exact Option.noConfusion h
    | some parentId =>
      simp only [hp] at h
      by_cases hpz : parentId = 0
      · rw [if_pos hpz] at h
        exact Option.noConfusion h
      · rw [if_neg hpz] at h
        cases hpar : objGet doc.nodes parentId with
        | none =>
            simp only [hpar] at h
            exact Option.noConfusion h
        | some parent =>
          simp only [hpar] at h
          cases hi : indexOf parent.childrenIds cursor.id with
          | none =>
              simp only [hi] at h
              exact Option.noConfusion h
          | some index =>
            simp only [hi] at h
            have hlen : index < parent.childrenIds.length := indexOf_lt_length hi
            refine ⟨cursor, parentId, parent, by first | rfl | exact hc,
              by first | rfl | exact hp, by first | rfl | exact hpar, ?_⟩
            cases dir with
            | up =>
              simp only [reduceIte] at h
              by_cases hguard : ((index : Int) - 1 < 0 ∨
                  (parent.childrenIds.length : Int) ≤ (index : Int) - 1)
              · rw [if_pos hguard] at h
                exact Option.noConfusion h
              · rw [if_neg hguard] at h
                push_neg at hguard
                have h1i : 1 ≤ index := by omega
                have hj : ((index : Int) - 1).toNat = index - 1 := by omega
                have hidx : index = (index - 1) + 1 := by omega
                injection h with h
                refine ⟨_, ?_, h.symm⟩
                rw [hj, hidx]
                have hlt : (index - 1) + 1 < parent.childrenIds.length := by omega
                have hperm := set_set_adjacent_perm2 parent.childrenIds (index - 1) hlt
                simpa using hperm
            | down =>
              rw [if_neg (by decide : ¬ (SwapDir.down = SwapDir.up))] at h
              by_cases hguard : ((index : Int) + 1 < 0 ∨
                  (parent.childrenIds.length : Int) ≤ (index : Int) + 1)
              · rw [if_pos hguard] at h
                exact Option.noConfusion h
              · rw [if_neg hguard] at h
                push_neg at hguard
                have hj : ((index : Int) + 1).toNat = index + 1 := by omega
                have hlt : index + 1 < parent.childrenIds.length := by omega
                injection h with h
                refine ⟨_, ?_, h.symm⟩
                rw [hj]
                exact set_set_adjacent_perm parent.childrenIds index hlt

/-- Inversion of a successful `addChild`: a fresh empty leaf appended to the
cursor node's children, cursor moved onto it. -/
theorem addChild_inv {doc : Document} {c : Nat} {r : Document × NodeId}
    (h : addChild doc c = some r) :
    ∃ cursor, objGet doc.nodes doc.cursorId = some cursor ∧
      r.2 = c ∧
      r.1 = leafAddedDoc doc cursor.id cursor c (cursor.childrenIds ++ c :: []) := by
  rw [addChild] at h
  cases hc : objGet doc.nodes doc.cursorId with
  | none =>
      simp only [hc] at h
      exact Option.noConfusion h
  | some cursor =>
    simp only [hc] at h
    injection h with h
    refine ⟨cursor, by first | rfl | exact hc, ?_, ?_⟩
    · rw [← h]
    · rw [← h]
      rfl

/-- Inversion of a successful `addSibling`: either the cursor is the root and
the call reduces to `addChild`, or a fresh empty leaf is spliced in right
after the cursor among its parent's children. -/
theorem addSibling_inv {doc : Document} {c : Nat} {r : Document × NodeId}
    (h : addSibling doc c = some r) :
    (∃ cursor, objGet doc.nodes doc.cursorId = some cursor ∧ cursor.parentId = none ∧
        addChild doc c = some r) ∨
    ∃ cursor parentId parent index,
      objGet doc.nodes doc.cursorId = some cursor ∧
      cursor.parentId = some parentId ∧
      objGet doc.nodes parentId = some parent ∧
      indexOf parent.childrenIds cursor.id = some index ∧
      r.2 = c ∧
      r.1 = leafAddedDoc doc parent.id parent c
        (parent.childrenIds.take (index + 1) ++ c ::
          parent.childrenIds.drop (index + 1)) := by
  rw [addSibling] at h
  cases hc : objGet doc.nodes doc.cursorId with
  | none =>
      simp only [hc] at h
      exact Option.noConfusion h
  | some cursor =>
    simp only [hc] at h
    cases hp : cursor.parentId with
    | none =>
        simp only [hp] at h
        exact Or.inl ⟨cursor, by first | rfl | exact hc, by first | rfl | exact hp, h⟩
    | some parentId =>
      simp only [hp] at h
      cases hpar : objGet doc.nodes parentId with
      | none =>
          simp only [hpar] at h
          exact Option.noConfusion h
      | some parent =>
        simp only [hpar] at h
        cases hi : indexOf parent.childrenIds cursor.id with
        | none =>
            simp only [hi] at h
            exact Option.noConfusion h
        | some index =>
          simp only [hi] at h
          injection h with h
          refine Or.inr ⟨cursor, parentId, parent, index, by first | rfl | exact hc,
            by first | rfl | exact hp, by first | rfl | exact hpar,
            by first | rfl | exact hi, ?_, ?_⟩
          · rw [← h]
          · rw [← h]
            simp only [leafAddedDoc, addLeafNodes]
            have hl : parent.childrenIds.take (index + 1) ++ [c] ++
                parent.childrenIds.drop (index + 1) =
                parent.childrenIds.take (index + 1) ++ c ::
                  parent.childrenIds.drop (index + 1) := by
              simp
            rw [hl]

/-- The key set after inserting a fresh leaf. -/
theorem keys_addLeafNodes {nodes : List (NodeId × Node)} {pid : NodeId} {p : Node}
    (hpp : objGet nodes pid = some p) {newId : NodeId} (hfresh : newId ∉ keys nodes)
    (l2 : List NodeId) :
    keys (addLeafNodes nodes pid p newId l2) = keys nodes ++ [newId] := by
  have hmem2 : pid ∈ keys (nodes ++
      [(newId, ({ id := newId, text := "", parentId := some pid, childrenIds := [] } : Node))]) := by
    simp only [keys, List.map_append, List.mem_append]
    exact Or.inl (mem_keys_of_objGet hpp)
  rw [addLeafNodes, objSet_of_not_mem _ hfresh, keys_objSet_of_mem _ hmem2]
  simp [keys]

/-- The last element of a list is a member. -/
theorem mem_of_getLast {α : Type} {l : List α} {a : α} (h : l.getLast? = some a) :
    a ∈ l := by
  induction l with
  | nil => exact Option.noConfusion h
  | cons x xs ih =>
    cases xs with
    | nil =>
      have h2 : some x = some a := h
      rw [Option.some.inj h2]
      exact List.mem_singleton.mpr rfl
    | cons y ys =>
      rw [List.getLast?_cons_cons] at h
      exact List.mem_cons_of_mem x (ih h)

/-- `DocOK` only reads the node table, the root, and the history stacks. -/
theorem DocOK.of_fields {doc doc2 : Document} {m : Nat} (h : DocOK doc m)
    (hn : doc2.nodes = doc.nodes) (hr : doc2.rootId = doc.rootId)
    (hu : doc2.undoStack = doc.undoStack) (hre : doc2.redoStack = doc.redoStack) :
    DocOK doc2 m := by
  refine ⟨⟨h.1.1.congr hn hr, ?_⟩, ?_, ?_⟩
  · intro id hid
    rw [hn] at hid
    exact h.1.2 id hid
  · intro t ht
    rw [hu] at ht
    exact h.2.1 t ht
  · intro t ht
    rw [hre] at ht
    exact h.2.2 t ht

/-- The freshly created document is in good standing for the bumped counter. -/
theorem DocOK_createInitialDocument (t : String) (c : Nat) :
    DocOK (createInitialDocument t c).2.1 (c + 2) := by
  refine ⟨⟨TreeWF_single c t, ?_⟩, ?_, ?_⟩
  · intro id hid
    simp [createInitialDocument, keys] at hid
    omega
  · intro u hu
    simp [createInitialDocument] at hu
  · intro u hu
    simp [createInitialDocument] at hu

/-- Inversion of a successful `updateActiveDoc`. -/
theorem updateActiveDoc_eq {s : EditorAppState} {f : Document → Option Document}
    {s2 : EditorAppState} (h : updateActiveDoc s f = some s2) :
    ∃ current updated,
      objGet s.workspace.documents s.workspace.activeDocId = some current ∧
      f current = some updated ∧
      s2 = { s with workspace := { s.workspace with
        documents := objSet s.workspace.documents s.workspace.activeDocId updated } } := by
  rw [updateActiveDoc] at h
  cases hc : objGet s.workspace.documents s.workspace.activeDocId with
  | none =>
      simp only [hc] at h
      exact Option.noConfusion h
  | some current =>
    simp only [hc] at h
    cases hu : f current with
    | none =>
        simp only [hu] at h
        exact Option.noConfusion h
    | some updated =>
        simp only [hu] at h
        injection h with h
        exact ⟨current, updated, by first | rfl | exact hc, by first | rfl | exact hu,
          h.symm⟩

/-- Replacing the active document (with revision bump) preserves the global
invariant when the new document is in good standing. -/
theorem StateOK_withActiveDoc {s : EditorAppState} (h : StateOK s) {updated : Document}
    (hdoc : DocOK updated s.nextId) : StateOK (withActiveDoc s updated) := by
  refine ⟨?_, ?_⟩
  · intro docId doc hd
    have hd2 : objGet (objSet s.workspace.documents s.workspace.activeDocId updated) docId
        = some doc := hd
    rw [objGet_objSet] at hd2
    by_cases hk : docId = s.workspace.activeDocId
    · rw [if_pos hk] at hd2
      injection hd2 with hd2
      rw [← hd2]
      exact hdoc
    · rw [if_neg hk] at hd2
      exact h.1 docId doc hd2
  · intro o ho
    exact h.2 o ho

/-- A fresh leaf insertion keeps a document in good standing for any bound
covering both the old table and the new id. -/
theorem DocOK_leafAddedDoc {current : Document} {m m2 : Nat} (hdoc : DocOK current m)
    {pid : NodeId} {p : Node} (hpp : objGet current.nodes pid = some p)
    {newId : NodeId} (hfresh : newId ∉ keys current.nodes)
    (hm : m ≤ m2) (hnew : newId < m2)
    (a b : List NodeId) (hab : p.childrenIds = a ++ b) :
    DocOK (leafAddedDoc current pid p newId (a ++ newId :: b)) m2 := by
  refine ⟨⟨?_, ?_⟩, ?_, ?_⟩
  · exact (TreeWF_add_leaf hdoc.1.1 hpp newId hfresh a b hab).congr rfl rfl
  · intro id hid
    have hid2 : id ∈ keys (addLeafNodes current.nodes pid p newId (a ++ newId :: b)) := hid
    rw [keys_addLeafNodes hpp hfresh] at hid2
    rcases List.mem_append.mp hid2 with h1 | h1
    · exact lt_of_lt_of_le (hdoc.1.2 id h1) hm
    · rw [List.mem_singleton.mp h1]
      exact hnew
  · intro t ht
    exact TreeOK_mono (hdoc.2.1 t ht) hm
  · intro t ht
    exact TreeOK_mono (hdoc.2.2 t ht) hm

/-- The one action whose payload can smuggle an arbitrary workspace past the
reducer: `finishHydration` with a non-null payload.  Every other action is
safe. -/
def hydrationSafe : EditorAction → Bool
  | EditorAction.finishHydration (some _) => false
  | _ => true

/-- One reducer step preserves the global invariant, for every action except
a non-null `finishHydration`. -/
theorem StateOK_step {s : EditorAppState} (h : StateOK s) :
    ∀ a : EditorAction, hydrationSafe a = true → StateOK (editorReducer s a) := by
  intro a ha
  cases a with
  | finishHydration ws =>
    cases ws with
    | none =>
      simp only [editorReducer]
      by_cases hh : s.hydrated
      · rw [if_pos hh]
        exact h
      · rw [if_neg hh]
        exact ⟨fun docId doc hd => h.1 docId doc hd, fun o ho => h.2 o ho⟩
    | some w => simp [hydrationSafe] at ha
  | setActiveDoc docId =>
    simp only [editorReducer]
    repeat' split
    all_goals exact h
  | switchDocNext =>
    simp only [editorReducer]
    repeat' split
    all_goals exact h
  | switchDocPrev =>
    simp only [editorReducer]
    repeat' split
    all_goals exact h
  | createDoc =>
    simp only [editorReducer]
    split
    · exact h
    · refine ⟨?_, ?_⟩
      · intro docId doc hd
        have hd2 : objGet (objSet s.workspace.documents (s.nextId + 1)
            (createInitialDocument "" s.nextId).2.1) docId = some doc := hd
        rw [objGet_objSet] at hd2
        show DocOK doc (s.nextId + 2)
        by_cases hk : docId = s.nextId + 1
        · rw [if_pos hk] at hd2
          injection hd2 with hd2
          rw [← hd2]
          exact DocOK_createInitialDocument "" s.nextId
        · rw [if_neg hk] at hd2
          exact DocOK_mono (h.1 docId doc hd2) (by omega)
      · intro o ho
        have ho2 : s.insertOrigin = some o := ho
        show TreeOK o.snapshot (s.nextId + 2)
        exact TreeOK_mono (h.2 o ho2) (by omega)
  | requestCloseActiveDoc =>
    simp only [editorReducer]
    repeat' split
    all_goals exact h
  | cancelCloseConfirm =>
    simp only [editorReducer]
    repeat' split
    all_goals exact h
  | closeActiveDoc =>
    simp only [editorReducer]
    repeat' split
    all_goals try exact h
    refine ⟨?_, ?_⟩
    · intro docId doc hd
      have hd2 : objGet (objDelete s.workspace.documents s.workspace.activeDocId) docId
          = some doc := hd
      have hne : docId ≠ s.workspace.activeDocId := by
        intro hh
        rw [hh, objGet_objDelete_self] at hd2
        exact Option.noConfusion hd2
      rw [objGet_objDelete_ne _ _ _ hne] at hd2
      exact h.1 docId doc hd2
    · intro o ho
      exact h.2 o ho
  | deleteNode =>
    simp only [editorReducer]
    split
    · exact h
    split
    · exact h
    · rename_i next hnext
      obtain ⟨current, updated, hcur, hupd, heq⟩ := updateActiveDoc_eq hnext
      subst heq
      refine StateOK_withActiveDoc h ?_
      have hupd2 : (if current.cursorId = current.rootId then none else
          match deleteCursorNodeAndPromoteChildren current with
          | none => none
          | some up9 =>
              some { up9 with
                       undoStack := current.undoStack ++
                         [cloneDocumentState current.toDocumentState]
                       redoStack := [] }) = some updated := hupd
      by_cases hcr : current.cursorId = current.rootId
      · rw [if_pos hcr] at hupd2
        exact Option.noConfusion hupd2
      · rw [if_neg hcr] at hupd2
        cases hdel : deleteCursorNodeAndPromoteChildren current with
        | none =>
            simp only [hdel] at hupd2
            exact Option.noConfusion hupd2
        | some d9 =>
          simp only [hdel] at hupd2
          injection hupd2 with hupd2
          have hdoc := h.1 _ _ hcur
          obtain ⟨hwf9, hkeys9, _, _, _⟩ := TreeWF_delete hdoc.1.1 hdel
          rw [← hupd2]
          refine ⟨⟨?_, ?_⟩, ?_, ?_⟩
          · exact hwf9.congr rfl rfl
          · intro id hid
            exact hdoc.1.2 id (hkeys9 id hid)
          · intro t ht
            have ht2 : t ∈ current.undoStack ++ [cloneDocumentState current.toDocumentState] := ht
            rcases List.mem_append.mp ht2 with h1 | h1
            · exact hdoc.2.1 t h1
            · rw [List.mem_singleton.mp h1, cloneDocumentState_eq]
              exact hdoc.1
          · intro t ht
            exact absurd ht (List.not_mem_nil t)
  | selectNode nodeId =>
    simp only [editorReducer]
    split
    · exact h
    split
    · exact h
    · rename_i next hnext
      obtain ⟨current, updated, hcur, hupd, heq⟩ := updateActiveDoc_eq hnext
      subst heq
      refine StateOK_withActiveDoc h ?_
      have hupd2 : (if (objGet current.nodes nodeId).isNone then none
          else if current.cursorId = nodeId then none
          else some { current with cursorId := nodeId }) = some updated := hupd
      by_cases h1 : (objGet current.nodes nodeId).isNone
      · rw [if_pos h1] at hupd2
        exact Option.noConfusion hupd2
      · rw [if_neg h1] at hupd2
        by_cases h2 : current.cursorId = nodeId
        · rw [if_pos h2] at hupd2
          exact Option.noConfusion hupd2
        · rw [if_neg h2] at hupd2
          injection hupd2 with hupd2
          rw [← hupd2]
          exact (h.1 _ _ hcur).of_fields rfl rfl rfl rfl
  | moveCursor direction =>
    simp only [editorReducer]
    split
    · exact h
    split
    · exact h
    · rename_i next hnext
      obtain ⟨current, updated, hcur, hupd, heq⟩ := updateActiveDoc_eq hnext
      subst heq
      have hupd2 : moveCursor current direction = some updated := hupd
      obtain ⟨hn, hr, hu, hre, _⟩ := moveCursor_inv hupd2
      exact StateOK_withActiveDoc h ((h.1 _ _ hcur).of_fields hn hr hu hre)
  | swapSibling direction =>
    simp only [editorReducer]
    split
    · exact h
    split
    · exact h
    · rename_i next hnext
      obtain ⟨current, updated, hcur, hupd, heq⟩ := updateActiveDoc_eq hnext
      subst heq
      have hupd2 : swapSibling current direction = some updated := hupd
      obtain ⟨cursor, parentId, parent, hc2, hp2, hpar2, nextChildren, hperm, hd2⟩ :=
        swapSibling_inv hupd2
      have hdoc := h.1 _ _ hcur
      have hpid : parent.id = parentId := hdoc.1.1.idCoherent _ _ hpar2
      have hk : objGet current.nodes parent.id = some parent := by
        rw [hpid]
        exact hpar2
      refine StateOK_withActiveDoc h ?_
      rw [hd2]
      refine ⟨⟨?_, ?_⟩, ?_, ?_⟩
      · exact (@TreeWF_replace_perm current.toDocumentState hdoc.1.1 parent.id parent
          { parent with childrenIds := nextChildren } hk rfl rfl hperm).congr rfl rfl
      · intro id hid
        have hid2 : id ∈ keys (objSet current.nodes parent.id
            { parent with childrenIds := nextChildren }) := hid
        rw [keys_objSet_of_mem _ (mem_keys_of_objGet hk)] at hid2
        exact hdoc.1.2 id hid2
      · intro t ht
        exact hdoc.2.1 t ht
      · intro t ht
        exact hdoc.2.2 t ht
  | enterInsert =>
    simp only [editorReducer]
    split
    · exact h
    split
    · exact h
    · rename_i doc0 hdoc0
      refine ⟨?_, ?_⟩
      · intro docId doc hd
        exact h.1 docId doc hd
      · intro o ho
        have ho2 : some ({ docId := s.workspace.activeDocId, snapshot := cloneDocumentState doc0.toDocumentState } : InsertOrigin) = some o := ho
        injection ho2 with ho2
        rw [← ho2]
        show TreeOK (cloneDocumentState doc0.toDocumentState) s.nextId
        rw [cloneDocumentState_eq]
        exact (h.1 _ _ hdoc0).1
  | addChildAndInsert =>
    simp only [editorReducer]
    split
    · exact h
    split
    · exact h
    · rename_i current hcur
      split
      · refine ⟨?_, ?_⟩
        · intro docId doc hd
          show DocOK doc s.nextId
          exact h.1 docId doc hd
        · intro o ho
          have ho2 : some ({ docId := s.workspace.activeDocId, snapshot := cloneDocumentState current.toDocumentState } : InsertOrigin) = some o := ho
          injection ho2 with ho2
          rw [← ho2]
          show TreeOK (cloneDocumentState current.toDocumentState) s.nextId
          rw [cloneDocumentState_eq]
          exact (h.1 _ _ hcur).1
      · rename_i r har
        refine ⟨?_, ?_⟩
        · intro docId doc hd
          have hd2 : objGet (objSet s.workspace.documents s.workspace.activeDocId r.1)
              docId = some doc := hd
          rw [objGet_objSet] at hd2
          show DocOK doc (s.nextId + 1)
          by_cases hk : docId = s.workspace.activeDocId
          · rw [if_pos hk] at hd2
            injection hd2 with hd2
            rw [← hd2]
            obtain ⟨cursor, hcg, hr2, hr1⟩ := addChild_inv har
            have hdoc := h.1 _ _ hcur
            have hcid : cursor.id = current.cursorId := hdoc.1.1.idCoherent _ _ hcg
            have hkc : objGet current.nodes cursor.id = some cursor := by
              rw [hcid]
              exact hcg
            have hfresh : s.nextId ∉ keys current.nodes := by
              intro hm
              have := hdoc.1.2 _ hm
              omega
            have hstep : DocOK (leafAddedDoc current cursor.id cursor s.nextId
                (cursor.childrenIds ++ s.nextId :: [])) (s.nextId + 1) :=
              DocOK_leafAddedDoc hdoc hkc hfresh (Nat.le_succ _) (Nat.lt_succ_self _)
                cursor.childrenIds [] (by simp)
            rw [hr1]
            exact hstep
          · rw [if_neg hk] at hd2
            exact DocOK_mono (h.1 docId doc hd2) (by omega)
        · intro o ho
          have ho2 : some ({ docId := s.workspace.activeDocId, snapshot := cloneDocumentState current.toDocumentState } : InsertOrigin) = some o := ho
          injection ho2 with ho2
          rw [← ho2]
          show TreeOK (cloneDocumentState current.toDocumentState) (s.nextId + 1)
          rw [cloneDocumentState_eq]
          exact TreeOK_mono (h.1 _ _ hcur).1 (by omega)
  | addSiblingAndInsert =>
    simp only [editorReducer]
    split
    · exact h
    split
    · exact h
    · rename_i current hcur
      split
      · refine ⟨?_, ?_⟩
        · intro docId doc hd
          show DocOK doc s.nextId
          exact h.1 docId doc hd
        · intro o ho
          have ho2 : some ({ docId := s.workspace.activeDocId, snapshot := cloneDocumentState current.toDocumentState } : InsertOrigin) = some o := ho
          injection ho2 with ho2
          rw [← ho2]
          show TreeOK (cloneDocumentState current.toDocumentState) s.nextId
          rw [cloneDocumentState_eq]
          exact (h.1 _ _ hcur).1
      · rename_i r har
        refine ⟨?_, ?_⟩
        · intro docId doc hd
          have hd2 : objGet (objSet s.workspace.documents s.workspace.activeDocId r.1)
              docId = some doc := hd
          rw [objGet_objSet] at hd2
          show DocOK doc (s.nextId + 1)
          by_cases hk : docId = s.workspace.activeDocId
          · rw [if_pos hk] at hd2
            injection hd2 with hd2
            rw [← hd2]
            have hdoc := h.1 _ _ hcur
            have hfresh : s.nextId ∉ keys current.nodes := by
              intro hm
              have := hdoc.1.2 _ hm
              omega
            rcases addSibling_inv har with ⟨cursor, hcg, hpn, hac⟩ |
              ⟨cursor, parentId, parent, index, hcg, hpn, hpar, hi, hr2, hr1⟩
            · obtain ⟨cursor2, hcg2, hr2, hr1⟩ := addChild_inv hac
              have hcid : cursor2.id = current.cursorId := hdoc.1.1.idCoherent _ _ hcg2
              have hkc : objGet current.nodes cursor2.id = some cursor2 := by
                rw [hcid]
                exact hcg2
              have hstep : DocOK (leafAddedDoc current cursor2.id cursor2 s.nextId
                  (cursor2.childrenIds ++ s.nextId :: [])) (s.nextId + 1) :=
                DocOK_leafAddedDoc hdoc hkc hfresh (Nat.le_succ _) (Nat.lt_succ_self _)
                  cursor2.childrenIds [] (by simp)
              rw [hr1]
              exact hstep
            · have hpid : parent.id = parentId := hdoc.1.1.idCoherent _ _ hpar
              have hkp : objGet current.nodes parent.id = some parent := by
                rw [hpid]
                exact hpar
              have hstep : DocOK (leafAddedDoc current parent.id parent s.nextId
                  (parent.childrenIds.take (index + 1) ++ s.nextId ::
                    parent.childrenIds.drop (index + 1))) (s.nextId + 1) :=
                DocOK_leafAddedDoc hdoc hkp hfresh (Nat.le_succ _) (Nat.lt_succ_self _)
                  (parent.childrenIds.take (index + 1)) (parent.childrenIds.drop (index + 1))
                  (List.take_append_drop (index + 1) parent.childrenIds).symm
              rw [hr1]
              exact hstep
          · rw [if_neg hk] at hd2
            exact DocOK_mono (h.1 docId doc hd2) (by omega)
        · intro o ho
          have ho2 : some ({ docId := s.workspace.activeDocId, snapshot := cloneDocumentState current.toDocumentState } : InsertOrigin) = some o := ho
          injection ho2 with ho2
          rw [← ho2]
          show TreeOK (cloneDocumentState current.toDocumentState) (s.nextId + 1)
          rw [cloneDocumentState_eq]
          exact TreeOK_mono (h.1 _ _ hcur).1 (by omega)
  | setCursorText text =>
    simp only [editorReducer]
    split
    · exact h
    split
    · exact h
    · rename_i next hnext
      obtain ⟨current, updated, hcur, hupd, heq⟩ := updateActiveDoc_eq hnext
      subst heq
      refine StateOK_withActiveDoc h ?_
      have hupd2 : (match objGet current.nodes current.cursorId with
          | none => none
          | some cursor =>
              some { current with nodes := objSet current.nodes cursor.id { cursor with text := text } }) = some updated := hupd
      cases hcg : objGet current.nodes current.cursorId with
      | none =>
          simp only [hcg] at hupd2
          exact Option.noConfusion hupd2
      | some cursor =>
          simp only [hcg] at hupd2
          injection hupd2 with hupd2
          have hdoc := h.1 _ _ hcur
          have hcid : cursor.id = current.cursorId := hdoc.1.1.idCoherent _ _ hcg
          have hkc : objGet current.nodes cursor.id = some cursor := by
            rw [hcid]
            exact hcg
          rw [← hupd2]
          refine ⟨⟨?_, ?_⟩, ?_, ?_⟩
          · exact (@TreeWF_replace_perm current.toDocumentState hdoc.1.1 cursor.id cursor
              { cursor with text := text } hkc rfl rfl (List.Perm.refl _)).congr rfl rfl
          · intro id hid
            have hid2 : id ∈ keys (objSet current.nodes cursor.id
                { cursor with text := text }) := hid
            rw [keys_objSet_of_mem _ (mem_keys_of_objGet hkc)] at hid2
            exact hdoc.1.2 id hid2
          · intro t ht
            exact hdoc.2.1 t ht
          · intro t ht
            exact hdoc.2.2 t ht
  | commitInsert =>
    by_cases hm : s.mode = Mode.insert
    · cases horig : s.insertOrigin with
      | none =>
        have hred : editorReducer s EditorAction.commitInsert =
            { s with mode := Mode.normal, insertOrigin := none } := by
          simp [editorReducer, hm, horig]
        rw [hred]
        exact ⟨fun docId doc hd => h.1 docId doc hd, fun o ho => Option.noConfusion ho⟩
      | some origin =>
        by_cases hdid : origin.docId = s.workspace.activeDocId
        · cases hcd : objGet s.workspace.documents s.workspace.activeDocId with
          | none =>
            have hred : editorReducer s EditorAction.commitInsert = s := by
              simp [editorReducer, hm, horig, hdid, hcd]
            rw [hred]
            exact h
          | some currentDoc =>
            by_cases heq : documentStateEquals origin.snapshot currentDoc.toDocumentState
            · have hred : editorReducer s EditorAction.commitInsert =
                  { s with mode := Mode.normal, insertOrigin := none } := by
                simp [editorReducer, hm, horig, hdid, hcd, heq]
              rw [hred]
              exact ⟨fun docId doc hd => h.1 docId doc hd, fun o ho => Option.noConfusion ho⟩
            · have hne2 : documentStateEquals origin.snapshot currentDoc.toDocumentState
                  = false := by
                simpa using heq
              have horig2 : s.insertOrigin =
                  some { docId := s.workspace.activeDocId, snapshot := origin.snapshot } := by
                rw [horig, ← hdid]
              have hred := reducer_commitInsert_push s currentDoc origin.snapshot hm horig2
                (by rw [activeDoc]; exact hcd) hne2
              rw [hred]
              have hbase : StateOK { s with mode := Mode.normal, insertOrigin := none } :=
                ⟨fun docId doc hd => h.1 docId doc hd, fun o ho => Option.noConfusion ho⟩
              refine StateOK_withActiveDoc hbase ?_
              have hdoc := h.1 _ _ hcd
              refine ⟨⟨hdoc.1.1.congr rfl rfl, fun id hid => hdoc.1.2 id hid⟩, ?_, ?_⟩
              · intro t ht
                have ht2 : t ∈ currentDoc.undoStack ++ [origin.snapshot] := ht
                rcases List.mem_append.mp ht2 with h1 | h1
                · exact hdoc.2.1 t h1
                · rw [List.mem_singleton.mp h1]
                  exact h.2 origin horig
              · intro t ht
                exact absurd ht (List.not_mem_nil t)
        · have hred : editorReducer s EditorAction.commitInsert =
              { s with mode := Mode.normal, insertOrigin := none } := by
            simp [editorReducer, hm, horig, hdid]
          rw [hred]
          exact ⟨fun docId doc hd => h.1 docId doc hd, fun o ho => Option.noConfusion ho⟩
    · have hred : editorReducer s EditorAction.commitInsert = s := by
        simp [editorReducer, hm]
      rw [hred]
      exact h
  | undo =>
    simp only [editorReducer]
    split
    · exact h
    split
    · exact h
    · rename_i d0 hd0
      split
      · exact h
      · rename_i hlen
        cases hup : updateActiveDoc s (fun doc =>
            match doc.undoStack.getLast? with
            | none => none
            | some prev =>
                some { doc with
                         toDocumentState := cloneDocumentState prev
                         undoStack := doc.undoStack.dropLast
                         redoStack := doc.redoStack ++
                           [cloneDocumentState doc.toDocumentState] }) with
        | none => exact h
        | some s2 =>
          obtain ⟨current, updated, hcur, hupd, heq⟩ := updateActiveDoc_eq hup
          subst heq
          refine StateOK_withActiveDoc h ?_
          have hdoc := h.1 _ _ hcur
          cases hgl : current.undoStack.getLast? with
          | none =>
            simp only [hgl] at hupd
            exact Option.noConfusion hupd
          | some prev =>
            simp only [hgl] at hupd
            injection hupd with hupd
            rw [← hupd]
            have hprevmem : prev ∈ current.undoStack := mem_of_getLast hgl
            refine ⟨⟨?_, ?_⟩, ?_, ?_⟩
            · show TreeWF (cloneDocumentState prev)
              rw [cloneDocumentState_eq]
              exact (hdoc.2.1 prev hprevmem).1
            · show TreeBound (cloneDocumentState prev) s.nextId
              rw [cloneDocumentState_eq]
              exact (hdoc.2.1 prev hprevmem).2
            · intro t ht
              have ht2 : t ∈ current.undoStack.dropLast := ht
              exact hdoc.2.1 t ((List.dropLast_sublist _).subset ht2)
            · intro t ht
              have ht2 : t ∈ current.redoStack ++
                  [cloneDocumentState current.toDocumentState] := ht
              rcases List.mem_append.mp ht2 with h1 | h1
              · exact hdoc.2.2 t h1
              · rw [List.mem_singleton.mp h1, cloneDocumentState_eq]
                exact hdoc.1
  | redo =>
    simp only [editorReducer]
    split
    · exact h
    split
    · exact h
    · rename_i d0 hd0
      split
      · exact h
      · rename_i hlen
        cases hup : updateActiveDoc s (fun doc =>
            match doc.redoStack.getLast? with
            | none => none
            | some nxt =>
                some { doc with
                         toDocumentState := cloneDocumentState nxt
                         redoStack := doc.redoStack.dropLast
                         undoStack := doc.undoStack ++
                           [cloneDocumentState doc.toDocumentState] }) with
        | none => exact h
        | some s2 =>
          obtain ⟨current, updated, hcur, hupd, heq⟩ := updateActiveDoc_eq hup
          subst heq
          refine StateOK_withActiveDoc h ?_
          have hdoc := h.1 _ _ hcur
          cases hgl : current.redoStack.getLast? with
          | none =>
            simp only [hgl] at hupd
            exact Option.noConfusion hupd
          | some nxt =>
            simp only [hgl] at hupd
            injection hupd with hupd
            rw [← hupd]
            have hnxtmem : nxt ∈ current.redoStack := mem_of_getLast hgl
            refine ⟨⟨?_, ?_⟩, ?_, ?_⟩
            · show TreeWF (cloneDocumentState nxt)
              rw [cloneDocumentState_eq]
              exact (hdoc.2.2 nxt hnxtmem).1
            · show TreeBound (cloneDocumentState nxt) s.nextId
              rw [cloneDocumentState_eq]
              exact (hdoc.2.2 nxt hnxtmem).2
            · intro t ht
              have ht2 : t ∈ current.undoStack ++
                  [cloneDocumentState current.toDocumentState] := ht
              rcases List.mem_append.mp ht2 with h1 | h1
              · exact hdoc.2.1 t h1
              · rw [List.mem_singleton.mp h1, cloneDocumentState_eq]
                exact hdoc.1
            · intro t ht
              have ht2 : t ∈ current.redoStack.dropLast := ht
              exact hdoc.2.2 t ((List.dropLast_sublist _).subset ht2)

/-- The initial application state satisfies the global invariant. -/
theorem StateOK_initial : StateOK createInitialAppState := by
  refine ⟨?_, ?_⟩
  · intro docId doc hd
    have hd2 : (if 2 = docId then some (createInitialDocument "" 1).2.1 else none)
        = some doc := hd
    by_cases h2 : 2 = docId
    · rw [if_pos h2] at hd2
      injection hd2 with hd2
      rw [← hd2]
      exact DocOK_createInitialDocument "" 1
    · rw [if_neg h2] at hd2
      exact Option.noConfusion hd2
  · intro o ho
    exact Option.noConfusion ho

/-- The invariant is preserved by any finite sequence of hydration-safe
actions. -/
theorem StateOK_applyActions : ∀ (acts : List EditorAction) (s : EditorAppState),
    StateOK s → (∀ a ∈ acts, hydrationSafe a = true) →
    StateOK (applyActions s acts) := by
  intro acts
  induction acts with
  | nil =>
    intro s hs _
    exact hs
  | cons a rest ih =>
    intro s hs hall
    have h1 : StateOK (editorReducer s a) :=
      StateOK_step hs a (hall a (List.mem_cons_self a rest))
    have h2 : applyActions s (a :: rest) = applyActions (editorReducer s a) rest := rfl
    rw [h2]
    exact ih _ h1 (fun b hb => hall b (List.mem_cons_of_mem a hb))

/-- A workspace whose only document has a self-parented root: structurally a
valid `Workspace` value, so `finishHydration` accepts it. -/
def badDoc : Document :=
  { id := 5
    rootId := 7
    cursorId := 7
    nodes := [(7, { id := 7, text := "", parentId := some 7, childrenIds := [] })]
    undoStack := []
    redoStack := [] }

def badWorkspace : Workspace :=
  { tabs := [{ docId := 5 }]
    activeDocId := 5
    documents := [(5, badDoc)] }

/-- C1 counterexample: the literal claim quantifies over every finite sequence
of editor actions, but a `finishHydration` action with a non-null payload
installs the payload's documents after only tab-level sanitisation
(`sanitizeWorkspace` never inspects node tables), so a self-parented root
reaches the workspace: its `parentId` is not null and it is its own ancestor
in one `parentId` step. -/
theorem tree_well_formedness_counterexample :
    ∃ doc, objGet (applyActions createInitialAppState
        [EditorAction.finishHydration (some badWorkspace)]).workspace.documents 5 = some doc ∧
      ¬ WellFormedClaim doc.toDocumentState := by
  refine ⟨badDoc, by decide, ?_⟩
  intro hwf
  obtain ⟨⟨r, hr, hrp⟩, _, _, _⟩ := hwf
  have hr2 : some ({ id := 7, text := "", parentId := some 7, childrenIds := [] } : Node)
      = some r := hr
  rw [← Option.some.inj hr2] at hrp
  exact Option.noConfusion hrp

/-- C1 (amended): starting from the initial application state, after every
finite sequence of editor actions in which each `finishHydration` carries a
null payload, every document in the workspace satisfies tree well-formedness:
a unique root with null `parentId`, every other node's `parentId` resolving
to an existing node whose `childrenIds` lists it exactly once, and no id
reachable from itself by repeated `parentId` traversal. -/
theorem tree_well_formedness (acts : List EditorAction)
    (hsafe : ∀ a ∈ acts, hydrationSafe a = true) :
    ∀ docId doc,
      objGet (applyActions createInitialAppState acts).workspace.documents docId = some doc →
      WellFormedClaim doc.toDocumentState := by
  intro docId doc hd
  exact ((StateOK_applyActions acts createInitialAppState StateOK_initial hsafe).1
    docId doc hd).1.1.wellFormedClaim

/-- A concrete mixed action sequence: create a child in insert mode, edit its
text, commit, delete it again, then undo. -/
def c1Acts : List EditorAction :=
  [EditorAction.addChildAndInsert, EditorAction.setCursorText "hi",
   EditorAction.commitInsert, EditorAction.deleteNode, EditorAction.undo]

/-- Witness for the amended C1 on the concrete action sequence `c1Acts`. -/
theorem tree_well_formedness_witness :
    (∀ a ∈ c1Acts, hydrationSafe a = true) ∧
    (∀ docId doc,
      objGet (applyActions createInitialAppState c1Acts).workspace.documents docId
        = some doc → WellFormedClaim doc.toDocumentState) :=
  ⟨by decide, tree_well_formedness _ (by decide)⟩

end Vikokoro
